import Mathlib

/-!
# OctoXBPS — `XBPSExec` output parsing pipeline (src/src/xbpsexec.cpp)

A shallow embedding of the splitter / classifier / formatter of `XBPSExec`
and theorems about it.

* A `QString` is a sequence of `QChar`; it is modelled as `List Char`.
* Signals (`emit percentage(..)`, `emit textToPrintExt(..)`) are modelled as a
  list of `Event`s returned next to the successor state.
* External collaborators (`UnixCommand::isPackageInstalled`,
  `Package::makeURLClickable`, the Unicode decimal-digit table behind
  `QChar::isDigit`) are fields of `Env`.
-/

namespace XBPS

/-! ## QString layer -/

abbrev QString := List Char

/-- String literal of the source as a `QString`. -/
def qs (s : String) : QString := s.toList

/-- The escape character written `\033` (or as a raw byte) in the source. -/
def ESC : Char := Char.ofNat 27

/-- The single quote character. -/
def QUOTE : Char := Char.ofNat 39

/-- `QChar::isSpace`: U+0020, U+0009..U+000D, U+0085, U+00A0 and the Unicode
separator categories Zs, Zl, Zp. -/
def isSpace (c : Char) : Bool :=
  let n := c.toNat
  n == 0x20 || (0x09 ≤ n && n ≤ 0x0d) ||
  (n > 127 && (n == 0x85 || n == 0xa0 || n == 0x1680 || (0x2000 ≤ n && n ≤ 0x200a) ||
    n == 0x2028 || n == 0x2029 || n == 0x202f || n == 0x205f || n == 0x3000))

/-- ASCII decimal digit: `[0-9]` in both regex engines, `\d` in QRegularExpression. -/
def isAsciiDigit (c : Char) : Bool := 48 ≤ c.toNat && c.toNat ≤ 57

/-- `\s` of QRegularExpression (PCRE without Unicode properties). -/
def isPcreSpace (c : Char) : Bool :=
  let n := c.toNat
  n == 0x20 || (0x09 ≤ n && n ≤ 0x0d)

/-- `.` of QRegularExpression: any character but a line feed. -/
def isDot (c : Char) : Bool := c != '\n'

/-- `QString::trimmed`: strips `QChar::isSpace` characters from both ends. -/
def trimmed (s : QString) : QString :=
  ((s.dropWhile isSpace).reverse.dropWhile isSpace).reverse

/-- First index at or after `i` where `pat` occurs (`i` is the index of the head of the list). -/
def indexOfFrom (pat : QString) : QString → Nat → Int
  | [], i => if pat.isEmpty then (i : Int) else -1
  | c :: cs, i => if pat.isPrefixOf (c :: cs) then (i : Int) else indexOfFrom pat cs (i + 1)

/-- `QString::indexOf(const QString &)`: index of the first occurrence, `-1` if none. -/
def indexOf (s pat : QString) : Int := indexOfFrom pat s 0

/-- `QString::contains(const QString &)`. -/
def contains (s pat : QString) : Bool := indexOf s pat != -1

/-- Simple case folding as far as it can be observed against ASCII patterns:
`A..Z` fold to `a..z`, KELVIN SIGN folds to `k`, LATIN SMALL LETTER LONG S folds
to `s`; no other character folds to an ASCII character. -/
def foldCase (c : Char) : Char :=
  if 65 ≤ c.toNat ∧ c.toNat ≤ 90 then Char.ofNat (c.toNat + 32)
  else if c.toNat = 0x212a then 'k'
  else if c.toNat = 0x17f then 's'
  else c

/-- `QString::indexOf(pat, 0, Qt::CaseInsensitive)`. -/
def indexOfCI (s pat : QString) : Int := indexOf (s.map foldCase) (pat.map foldCase)

/-- `QString::contains(pat, Qt::CaseInsensitive)`. -/
def containsCI (s pat : QString) : Bool := indexOfCI s pat != -1

/-- `QString::left(n)`: the whole string when `n` is negative or not smaller than the size. -/
def left (s : QString) (n : Int) : QString :=
  if n < 0 ∨ (s.length : Int) ≤ n then s else s.take n.toNat

/-- `QString::mid(pos, n)` for `0 ≤ pos`, `0 ≤ n`. -/
def mid (s : QString) (pos : Int) (n : Nat) : QString := (s.drop pos.toNat).take n

/-- `QString::mid(pos)` for `0 ≤ pos`: everything from `pos` on. -/
def midFrom (s : QString) (pos : Nat) : QString := s.drop pos

/-- `QString::at(i)`; the source only calls it with `0 ≤ i < size`. -/
def charAt (s : QString) (i : Int) : Char := s.getD i.toNat ' '

/-- Worker of `QString::remove(const QString &)`: left-to-right, non-overlapping;
`skip` counts the characters of the current occurrence still to be dropped. -/
def removeAux (pat : QString) : QString → Nat → QString
  | [], _ => []
  | _ :: cs, skip + 1 => removeAux pat cs skip
  | c :: cs, 0 =>
    if pat.isPrefixOf (c :: cs) then removeAux pat cs (pat.length - 1)
    else c :: removeAux pat cs 0

/-- `QString::remove(const QString &)`: removes every occurrence; an empty
pattern removes nothing. -/
def remove (s pat : QString) : QString :=
  if pat.isEmpty then s else removeAux pat s 0

/-- Value of a non-empty string of ASCII digits. -/
def decimal : QString → Nat → Option Nat
  | [], _ => none
  | [c], acc => if isAsciiDigit c then some (acc * 10 + (c.toNat - 48)) else none
  | c :: cs, acc => if isAsciiDigit c then decimal cs (acc * 10 + (c.toNat - 48)) else none

/-- `QString::toInt()` (base 10, C locale): surrounding white space is skipped,
one optional sign, then decimal digits to the end; the result is 0 when the
conversion fails or the value does not fit an `int`. -/
def toInt (s : QString) : Int :=
  let v : Option Int :=
    match trimmed s with
    | '-' :: ds => (decimal ds 0).map (fun n => -(n : Int))
    | '+' :: ds => (decimal ds 0).map (fun n => (n : Int))
    | ds => (decimal ds 0).map (fun n => (n : Int))
  match v with
  | some n => if -2147483648 ≤ n ∧ n ≤ 2147483647 then n else 0
  | none => 0

/-! ## Regular expressions

The patterns of the source only use literals, character classes, bounded or
unbounded greedy repetition of a character class and one alternation of
literals. `matchHere` follows the backtracking order of the engines, so its
result is the match the engine reports at that start position. -/

inductive Atom where
  | lit (s : QString)
  | cls (p : Char → Bool) (lo : Nat) (hi : Option Nat)
  | alt (a b : QString)

/-- Strips the literal `l` from the front of `s`. -/
def stripPrefix : QString → QString → Option QString
  | [], s => some s
  | _ :: _, [] => none
  | a :: l, c :: s => if a = c then stripPrefix l s else none

/-- Remainders after a greedy repetition `p{lo,hi}` at the front of `s`,
longest repetition first. -/
def clsSplits (p : Char → Bool) (lo : Nat) (hi : Option Nat) (s : QString) : List QString :=
  let run := (s.takeWhile p).length
  let n := match hi with
    | some h => min h run
    | none => run
  if n < lo then [] else (List.range (n - lo + 1)).map (fun k => s.drop (n - k))

/-- First element of a list on which `f` succeeds. -/
def firstSome (f : QString → Option QString) : List QString → Option QString
  | [] => none
  | x :: xs => match f x with
    | some r => some r
    | none => firstSome f xs

/-- Match of the pattern anchored at the front of `s`: the remainder after the match. -/
def matchHere : List Atom → QString → Option QString
  | [], s => some s
  | Atom.lit l :: r, s =>
    match stripPrefix l s with
    | some s1 => matchHere r s1
    | none => none
  | Atom.alt a b :: r, s =>
    match (stripPrefix a s).bind (matchHere r) with
    | some x => some x
    | none => (stripPrefix b s).bind (matchHere r)
  | Atom.cls p lo hi :: r, s => firstSome (matchHere r) (clsSplits p lo hi s)

/-- Index of the first match at or after `i` (the index of the head of the list), `-1` if none. -/
def rxIndexOfFrom (rx : List Atom) : QString → Nat → Int
  | [], i => if (matchHere rx []).isSome then (i : Int) else -1
  | c :: cs, i => if (matchHere rx (c :: cs)).isSome then (i : Int) else rxIndexOfFrom rx cs (i + 1)

/-- `QString::indexOf(const QRegularExpression &)`. -/
def rxIndexOf (s : QString) (rx : List Atom) : Int := rxIndexOfFrom rx s 0

/-- `QString::contains(const QRegularExpression &)` / `contains(const QRegExp &)`. -/
def rxContains (s : QString) (rx : List Atom) : Bool := rxIndexOf s rx != -1

/-- Worker of `QString::remove(const QRegularExpression &)`: every match is
deleted, matching resumes where the previous match ended. -/
def rxRemoveAux (rx : List Atom) : QString → Nat → QString
  | [], _ => []
  | _ :: cs, skip + 1 => rxRemoveAux rx cs skip
  | c :: cs, 0 =>
    match matchHere rx (c :: cs) with
    | some rest =>
      if rest.length < (c :: cs).length then rxRemoveAux rx cs ((c :: cs).length - rest.length - 1)
      else c :: rxRemoveAux rx cs 0
    | none => c :: rxRemoveAux rx cs 0

/-- `QString::remove(const QRegularExpression &)`. -/
def rxRemove (s : QString) (rx : List Atom) : QString := rxRemoveAux rx s 0

/-- Literal pattern. -/
def L (s : String) : Atom := Atom.lit (qs s)

/-- Pattern `.+`. -/
def dotPlus : Atom := Atom.cls isDot 1 none

/-- Pattern `\d+` / `[0-9]+`. -/
def digitsPlus : Atom := Atom.cls isAsciiDigit 1 none

/-- Pattern `\d` / one `[0-9]`. -/
def oneDigit : Atom := Atom.cls isAsciiDigit 1 (some 1)

/-- Worker of `QString::split(const QRegExp &)`: all parts, the empty ones
included; the head of the result is the part being read. -/
def rxSplitAux (rx : List Atom) : QString → Nat → List QString
  | [], _ => [[]]
  | _ :: cs, skip + 1 => rxSplitAux rx cs skip
  | c :: cs, 0 =>
    match matchHere rx (c :: cs) with
    | some rest =>
      if rest.length < (c :: cs).length then
        [] :: rxSplitAux rx cs ((c :: cs).length - rest.length - 1)
      else
        match rxSplitAux rx cs 0 with
        | [] => [[c]]
        | part :: parts => (c :: part) :: parts
    | none =>
      match rxSplitAux rx cs 0 with
      | [] => [[c]]
      | part :: parts => (c :: part) :: parts

/-- `QString::split(const QRegExp &, QString::SkipEmptyParts)`. -/
def rxSplit (s : QString) (rx : List Atom) : List QString :=
  (rxSplitAux rx s 0).filter (fun part => !part.isEmpty)

/-- The counter pattern `\(\s{0,3}[0-9]{1,4}/[0-9]{1,4}\) ` as a QRegExp,
whose `\s` is `QChar::isSpace`. -/
def counterRegExp : List Atom :=
  [L "(", Atom.cls isSpace 0 (some 3), Atom.cls isAsciiDigit 1 (some 4), L "/",
   Atom.cls isAsciiDigit 1 (some 4), L ") "]

/-- The counter pattern `\(\s{0,3}[0-9]{1,4}/[0-9]{1,4}\) ` as a QRegularExpression. -/
def counterRegularExpression : List Atom :=
  [L "(", Atom.cls isPcreSpace 0 (some 3), Atom.cls isAsciiDigit 1 (some 4), L "/",
   Atom.cls isAsciiDigit 1 (some 4), L ") "]

/-! ## Session state, events, collaborators -/

/-- Operation Kind (`m_commandExecuting`). -/
inductive CommandExecuting where
  | ectn_NONE
  | ectn_CLEAN_CACHE
  | ectn_SYNC_DATABASE
  | ectn_SYSTEM_UPGRADE
  | ectn_REMOVE
  | ectn_INSTALL
  | ectn_REMOVE_INSTALL
  | ectn_RUN_IN_TERMINAL
  | ectn_RUN_SYSTEM_UPGRADE_IN_TERMINAL
  deriving DecidableEq, Repr

inductive TreatString where
  | ectn_TREAT_STRING
  | ectn_DONT_TREAT_STRING
  deriving DecidableEq, Repr

inductive TreatURLLinks where
  | ectn_TREAT_URL_LINK
  | ectn_DONT_TREAT_URL_LINK
  deriving DecidableEq, Repr

open CommandExecuting TreatString TreatURLLinks

/-- The members of `XBPSExec` the pipeline reads or writes. -/
structure XBPSExec where
  m_commandExecuting : CommandExecuting
  m_textPrinted : List QString
  m_lastCommandList : List QString
  deriving DecidableEq, Repr

/-- Signals emitted towards the UI. -/
inductive Event where
  | percentage (p : Int)
  | textToPrintExt (s : QString)
  deriving DecidableEq, Repr

/-- Collaborators outside `xbpsexec.cpp`. `unicodeNd` is the Unicode
decimal-digit category for the characters above U+007F. -/
structure Env where
  isPackageInstalled : QString → Bool
  makeURLClickable : QString → QString
  getPressAnyKey : QString
  isRootRunning : Bool
  hasTheExecutable : QString → Bool
  unicodeNd : Char → Bool

/-- `QChar::isDigit`. -/
def isDigit (env : Env) (c : Char) : Bool :=
  isAsciiDigit c || (c.toNat > 127 && env.unicodeNd c)

/-! ## `XBPSExec::prepareTextToPrint` -/

/-- The suppression test of lines 361-372. `contains(str, Qt::CaseInsensitive)`
is a case-insensitive search; `indexOf(str, Qt::CaseInsensitive)` at lines
367-368 is not: `QString::indexOf(const QString &, int from = 0,
Qt::CaseSensitivity cs = Qt::CaseSensitive)` takes the enumerator (value 0) as
`from`, so the search starts at index 0 and stays case-sensitive. -/
def unwantedString (str : QString) : Bool :=
  (rxContains str [L "(", oneDigit] &&
    !containsCI str (qs "target") && !containsCI str (qs "package")) ||
  (rxContains str [oneDigit, L ")"] &&
    !containsCI str (qs "target") && !containsCI str (qs "package")) ||
  indexOf str (qs "Enter a selection") == 0 ||
  indexOf str (qs "Proceed with") == 0 ||
  indexOf str (qs "%") != -1 ||
  indexOf str (qs "---") != -1 ||
  indexOf str (qs "removed obsolete entry") != -1 ||
  indexOf str (qs "avg rate") != -1

/-- Pattern `\d+ downloaded, \d+ installed, \d+ updated, \d+ configured, \d+ removed`. -/
def summaryRx : List Atom :=
  [digitsPlus, L " downloaded, ", digitsPlus, L " installed, ", digitsPlus, L " updated, ",
   digitsPlus, L " configured, ", digitsPlus, L " removed"]

/-- The red keyword test of lines 395-403. -/
def isRedText (s : QString) : Bool :=
  rxContains s [L "removed"] ||
  rxContains s [L "removing "] ||
  rxContains s [L "could not "] ||
  rxContains s [L "error"] ||
  rxContains s [L "failed"] ||
  rxContains s [L "is not synced"] ||
  rxContains s [Atom.cls (fun c => c == 'R' || c == 'r') 1 (some 1), L "emoving"] ||
  rxContains s [Atom.cls (fun c => c == 'D' || c == 'd') 1 (some 1), L "einstalling"] ||
  rxContains s [L "could not be found"]

/-- The green keyword test of lines 407-425. -/
def isGreenText (s : QString) : Bool :=
  rxContains s [L "reinstalled"] ||
  rxContains s [L "installed"] ||
  rxContains s [L "upgraded"] ||
  rxContains s [L "updated"] ||
  rxContains s [L "Verifying"] ||
  rxContains s [L "Building"] ||
  rxContains s [L "Checking"] ||
  rxContains s [L "Configuring"] ||
  rxContains s [L "Downloading"] ||
  rxContains s [L "Reinstalling"] ||
  rxContains s [L "Installing"] ||
  rxContains s [L "Updating"] ||
  rxContains s [L "Upgrading"] ||
  rxContains s [L "Loading"] ||
  rxContains s [L "Resolving"] ||
  rxContains s [L "Extracting"] ||
  rxContains s [L "Unpacking"] ||
  rxContains s [L "Running"] ||
  rxContains s [L "Looking"]

/-- The orange keyword test of lines 429-431. -/
def isWarningText (s : QString) : Bool :=
  rxContains s [L "warning"] ||
  rxContains s [L "downgrading"] ||
  rxContains s [L "options changed"]

/-- The package-name test of lines 435-437. -/
def isPkgNameText (s : QString) : Bool :=
  contains s (qs "-") &&
  !rxContains s [Atom.alt (qs "is") (qs "are"), L " up-to-date"] &&
  !rxContains s [Atom.cls isPcreSpace 1 (some 1)]

/-- Lines 383-447: the styling cascade applied to `newStr`. -/
def styleText (str : QString) : QString :=
  if rxContains str summaryRx then
    qs "<b>" ++ str ++ qs "</b>"
  else if rxContains str [L "<font color"] then
    str ++ qs "<br>"
  else if isRedText str then
    qs "<b><font color=\"#E55451\">" ++ str ++ qs "&nbsp;</font></b>"
  else if isGreenText str then
    qs "<b><font color=\"#4BC413\">" ++ str ++ qs "</font></b>"
  else if isWarningText str then
    qs "<b><font color=\"#FF8040\">" ++ str ++ qs "</font></b>"
  else if isPkgNameText str then
    qs "<b><font color=\"#FF8040\">" ++ str ++ qs "</font></b>"
  else str

/-- Lines 449-457: section header framing and the trailing line break. -/
def frameText (newStr : QString) : QString :=
  let newStr := if contains newStr (qs "::") then qs "<br><B>" ++ newStr ++ qs "</B><br><br>"
    else newStr
  if !rxContains newStr [L "<br"] then newStr ++ qs "<br>" else newStr

/-- `XBPSExec::prepareTextToPrint(str, ts, tl)`: successor state and emitted signals. -/
def prepareTextToPrint (env : Env) (st : XBPSExec) (str : QString)
    (ts : TreatString) (tl : TreatURLLinks) : XBPSExec × List Event :=
  if ts = ectn_DONT_TREAT_STRING then
    (st, [Event.textToPrintExt str])
  else if unwantedString str then
    (st, [])
  else if st.m_textPrinted.contains str then
    (st, [])
  else
    let newStr := frameText (styleText str)
    let newStr := if tl = ectn_TREAT_URL_LINK then env.makeURLClickable newStr else newStr
    ({ st with m_textPrinted := st.m_textPrinted ++ [str] }, [Event.textToPrintExt newStr])

/-! ## `XBPSExec::parseXBPSProcessOutput` -/

/-- Lines 195-213: prompt and colour-code removal. -/
def noiseFilter (output : QString) : QString :=
  let msg := rxRemove output [dotPlus, L "[Y/n]", dotPlus]
  let msg := remove msg (ESC :: qs "[0;1m")
  let msg := remove msg (ESC :: qs "[0m")
  let msg := remove msg (ESC :: qs "[1;33m")
  let msg := remove msg (ESC :: qs "[00;31m")
  let msg := remove msg (ESC :: qs "[1;34m")
  let msg := remove msg (ESC :: qs "[0;1m")
  let msg := remove msg (qs "c" ++ [ESC])
  let msg := remove msg (qs "C" ++ [ESC])
  let msg := remove msg [ESC]
  let msg := remove msg (qs "[m[0;37m")
  let msg := remove msg (qs "o" ++ [ESC])
  let msg := remove msg (qs "[m" ++ [ESC])
  let msg := remove msg (qs ";37m")
  let msg := remove msg (qs "[c")
  let msg := remove msg (qs "[mo")
  remove msg (qs "[1A[K")

/-- Lines 276-282: the rate / size / time suppression list. -/
def isRateSizeTime (msg : QString) : Bool :=
  rxContains msg [L "ETA"] ||
  rxContains msg [L "KiB"] ||
  rxContains msg [L "MiB"] ||
  rxContains msg [L "B/s"] ||
  rxContains msg [digitsPlus, L " B"] ||
  rxContains msg [Atom.cls isAsciiDigit 2 (some 2), L ":", Atom.cls isAsciiDigit 2 (some 2)]

/-- Lines 285-312: removal of diagnostic boilerplate, then `trimmed()`. -/
def stripBoilerplate (msg : QString) : QString :=
  let msg := rxRemove msg [L "(process", dotPlus]
  let msg := rxRemove msg [L "Using the fallback", dotPlus]
  let msg := rxRemove msg [L "Gkr-Message:", dotPlus]
  let msg := rxRemove msg [L "kdesu", dotPlus]
  let msg := rxRemove msg [L "kbuildsycoca", dotPlus]
  let msg := rxRemove msg [L "Connecting to deprecated signal", dotPlus]
  let msg := rxRemove msg [L "QVariant", dotPlus]
  let msg := rxRemove msg [L "libGL", dotPlus]
  let msg := rxRemove msg [L "Password", dotPlus]
  let msg := rxRemove msg [L "gksu-run", dotPlus]
  let msg := rxRemove msg [L "GConf Error:", dotPlus]
  let msg := rxRemove msg [L ":: Do you want", dotPlus]
  let msg := rxRemove msg [L "org.kde."]
  let msg := rxRemove msg [L "QCommandLineParser"]
  let msg := rxRemove msg [L "QCoreApplication", dotPlus]
  let msg := rxRemove msg [L "Fontconfig warning", dotPlus]
  let msg := rxRemove msg [L "reading configurations from", dotPlus]
  let msg := rxRemove msg [dotPlus, L "annot load library", dotPlus]
  let msg := rxRemove msg [L "pci id for fd ", digitsPlus, dotPlus]
  let msg := rxRemove msg [L "you should recompile libgtop and dependent applications", dotPlus]
  let msg := rxRemove msg [L "This libgtop was compiled on", dotPlus]
  let msg := rxRemove msg [L "If you see strange problems caused by it", dotPlus]
  let msg := rxRemove msg [L "LibGTop-Server", dotPlus]
  let msg := rxRemove msg [L "received eof", dotPlus]
  let msg := rxRemove msg [L "pid ", digitsPlus]
  trimmed msg

/-- Lines 314-324: a counter prefix at the very start is cut off; `none` is
the guarded `return` when no `)` is found. -/
def stripOrder (msg : QString) : Option QString :=
  let ini := rxIndexOf msg counterRegularExpression
  if ini == 0 then
    let rp := indexOf msg (qs ")")
    if rp == -1 then none
    else some (msg.drop (rp + 2).toNat)
  else some msg

/-- Lines 326-343: the text left for printing. -/
def printRemaining (env : Env) (st : XBPSExec) (msg : QString) : XBPSExec × List Event :=
  if !msg.isEmpty then
    if rxContains msg [L "removing "] && !st.m_textPrinted.contains (msg ++ qs " ") then
      let pkgName := trimmed (midFrom msg 9)
      if indexOf pkgName (qs "...") != -1 || env.isPackageInstalled pkgName then
        prepareTextToPrint env st (qs "<b><font color=\"#E55451\">" ++ msg ++ qs "</font></b>")
          ectn_TREAT_STRING ectn_TREAT_URL_LINK
      else (st, [])
    else
      prepareTextToPrint env st msg ectn_TREAT_STRING ectn_TREAT_URL_LINK
  else (st, [])

/-- Lines 259-262: the characters in front of the `%` at index `p`; `perc` is
the value the variable holds on entry. -/
def pickPerc (msg perc : QString) (p : Int) : QString :=
  if isSpace (charAt msg (p - 2)) then trimmed (mid msg (p - 1) 2)
  else if isSpace (charAt msg (p - 3)) then trimmed (mid msg (p - 2) 3)
  else perc

/-- Lines 267-271: the percentage signal for `perc`. -/
def emitPerc (perc : QString) : List Event :=
  if !perc.isEmpty && indexOf perc (qs "%") > 0 then
    [Event.percentage (toInt (left perc ((perc.length : Int) - 1)))]
  else []

/-- Lines 256-271: the percentage extraction; `perc` is the value the variable
holds on entry. -/
def percentageStep (msg perc : QString) : List Event :=
  let p := indexOf msg (qs "%")
  if p == -1 || p - 3 < 0 || p - 2 < 0 then []
  else emitPerc (pickPerc msg perc p)

/-- Lines 254-344: the percentage branch or the text branch. -/
def percentageOrText (env : Env) (st : XBPSExec) (msg perc : QString)
    (continueTesting : Bool) : XBPSExec × List Event :=
  if indexOf msg (qs "%") != -1 || continueTesting then
    (st, percentageStep msg perc)
  else if isRateSizeTime msg then (st, [])
  else
    match stripOrder (stripBoilerplate msg) with
    | none => (st, [])
    | some msg => printRemaining env st msg

/-- The condition of line 228. -/
def isDownloadLine (msg : QString) : Bool :=
  (contains msg (qs ".xbps:") || contains msg (qs ".xbps.sig:")) && contains msg (qs "%")

/-- The condition of lines 237-238. -/
def isUpdatingLine (msg : QString) : Bool :=
  contains msg (qs "Updating") &&
    (!rxContains msg [L "B/s"] && !rxContains msg [L "configuration file"])

/-- Lines 231-232: the text before the first colon. -/
def downloadTarget (msg : QString) : QString := left msg (indexOf msg (qs ":"))

/-- `XBPSExec::parseXBPSProcessOutput(output)`: successor state and emitted signals. -/
def parseXBPSProcessOutput (env : Env) (st : XBPSExec) (output : QString) :
    XBPSExec × List Event :=
  if st.m_commandExecuting = ectn_RUN_IN_TERMINAL ∨
     st.m_commandExecuting = ectn_RUN_SYSTEM_UPGRADE_IN_TERMINAL then (st, [])
  else
    let msg := noiseFilter output
    let continueTesting : Bool := indexOf msg (qs "100%") != -1
    let perc : QString := if continueTesting then qs "100%" else []
    let ev0 : List Event := if continueTesting then [Event.percentage 100] else []
    if isDownloadLine msg then
      let target := downloadTarget msg
      let r1 :=
        if !st.m_textPrinted.contains target then
          prepareTextToPrint env st (qs "<b><font color=\"#FF8040\">" ++ target ++ qs "</font></b>")
            ectn_TREAT_STRING ectn_TREAT_URL_LINK
        else (st, [])
      let r2 := percentageOrText env r1.1 msg perc continueTesting
      (r2.1, ev0 ++ r1.2 ++ r2.2)
    else if isUpdatingLine msg then
      let p := indexOf msg [QUOTE]
      if p == -1 then (st, ev0)
      else
        let target := remove (trimmed (remove (left msg p) (qs "Updating `"))) (qs "[*] ")
        let r1 :=
          if !st.m_textPrinted.contains target then
            prepareTextToPrint env st (qs "Updating " ++ target) ectn_TREAT_STRING ectn_TREAT_URL_LINK
          else (st, [])
        (r1.1, ev0 ++ r1.2)
    else
      let r2 := percentageOrText env st msg perc continueTesting
      (r2.1, ev0 ++ r2.2)

/-! ## `XBPSExec::splitOutputStrings` -/

/-- A `foreach` loop calling `parseXBPSProcessOutput` on each candidate in turn. -/
def parseEach (env : Env) : XBPSExec → List QString → XBPSExec × List Event
  | st, [] => (st, [])
  | st, c :: cs =>
    let r1 := parseXBPSProcessOutput env st c
    let r2 := parseEach env r1.1 cs
    (r2.1, r1.2 ++ r2.2)

/-- Lines 139-152: a piece of the `%` split as handed to the classifier. -/
def percentPiece (env : Env) (aux : QString) : Option QString :=
  let aux := trimmed aux
  if !aux.isEmpty then
    if isDigit env (aux.getLastD ' ') then some (aux ++ qs "%") else some aux
  else none

/-- Lines 131-174: the candidates of one segment `m`, in the order in which
they are handed to `parseXBPSProcessOutput`, and whether `res` stays untouched. -/
def segmentCandidates (env : Env) (m : QString) : List QString × Bool :=
  let m2 := rxSplit m counterRegExp
  if m2.length = 1 then
    let maux := rxSplit m [L "%"]
    if maux.length > 1 then (maux.filterMap (percentPiece env), true)
    else if maux.length = 1 then (if !m.isEmpty then [m] else [], true)
    else ([], true)
  else if m2.length > 1 then (m2.filter (fun m3 => !m3.isEmpty), true)
  else ([], false)

/-- The segments `msgs` of line 127. -/
def segments (output : QString) : List QString := rxSplit (trimmed output) [L "\n"]

/-- The outer `foreach` of `splitOutputStrings`, threading state, signals and `res`. -/
def splitEach (env : Env) : XBPSExec → List QString → XBPSExec × List Event × Bool
  | st, [] => (st, [], true)
  | st, m :: ms =>
    let c := segmentCandidates env m
    let r1 := parseEach env st c.1
    let r2 := splitEach env r1.1 ms
    (r2.1, r1.2 ++ r2.2.1, c.2 && r2.2.2)

/-- `XBPSExec::splitOutputStrings(output)`: successor state, emitted signals, result. -/
def splitOutputStrings (env : Env) (st : XBPSExec) (output : QString) :
    XBPSExec × List Event × Bool :=
  splitEach env st (segments output)

/-! ## Command entry points (lines 583-771) -/

/-- The call an entry point makes on its `UnixCommand`. -/
inductive UnixCall where
  | executeCommand (command : QString)
  | runCommandInTerminal (commandList : List QString)
  deriving DecidableEq, Repr

/-- The last two entries every interactive command list ends with. -/
def pressAnyKeyTail (env : Env) : List QString :=
  [qs "echo -e;", qs "read -n 1 -p \"" ++ env.getPressAnyKey ++ qs "\""]

def doCleanCache (st : XBPSExec) : XBPSExec × UnixCall :=
  ({ st with m_lastCommandList := [], m_commandExecuting := ectn_CLEAN_CACHE },
   UnixCall.executeCommand (qs "xbps-remove -O"))

def doInstall (env : Env) (st : XBPSExec) (listOfPackages : QString) : XBPSExec × UnixCall :=
  ({ st with
      m_lastCommandList := [qs "xbps-install " ++ listOfPackages ++ qs ";"] ++ pressAnyKeyTail env,
      m_commandExecuting := ectn_INSTALL },
   UnixCall.executeCommand (qs "xbps-install -y " ++ listOfPackages))

def doInstallInTerminal (env : Env) (st : XBPSExec) (listOfPackages : QString) :
    XBPSExec × UnixCall :=
  let l := [qs "xbps-install " ++ listOfPackages ++ qs ";"] ++ pressAnyKeyTail env
  ({ st with m_lastCommandList := l, m_commandExecuting := ectn_RUN_IN_TERMINAL },
   UnixCall.runCommandInTerminal l)

def doInstallLocal (env : Env) (st : XBPSExec) (listOfPackages : QString) : XBPSExec × UnixCall :=
  ({ st with
      m_lastCommandList := [qs "pacman -U --force " ++ listOfPackages ++ qs ";"] ++ pressAnyKeyTail env,
      m_commandExecuting := ectn_INSTALL },
   UnixCall.executeCommand (qs "pacman -U --force --noconfirm " ++ listOfPackages))

def doInstallLocalInTerminal (env : Env) (st : XBPSExec) (listOfPackages : QString) :
    XBPSExec × UnixCall :=
  let l := [qs "pacman -U --force " ++ listOfPackages ++ qs ";"] ++ pressAnyKeyTail env
  ({ st with m_lastCommandList := l, m_commandExecuting := ectn_RUN_IN_TERMINAL },
   UnixCall.runCommandInTerminal l)

def doRemove (env : Env) (st : XBPSExec) (listOfPackages : QString) : XBPSExec × UnixCall :=
  ({ st with
      m_lastCommandList := [qs "xbps-remove -R " ++ listOfPackages ++ qs ";"] ++ pressAnyKeyTail env,
      m_commandExecuting := ectn_REMOVE },
   UnixCall.executeCommand (qs "xbps-remove -R -y " ++ listOfPackages))

def doRemoveInTerminal (env : Env) (st : XBPSExec) (listOfPackages : QString) :
    XBPSExec × UnixCall :=
  let l := [qs "xbps-remove -R  " ++ listOfPackages ++ qs ";"] ++ pressAnyKeyTail env
  ({ st with m_lastCommandList := l, m_commandExecuting := ectn_RUN_IN_TERMINAL },
   UnixCall.runCommandInTerminal l)

def doRemoveAndInstall (env : Env) (st : XBPSExec)
    (listOfPackagestoRemove listOfPackagestoInstall : QString) : XBPSExec × UnixCall :=
  ({ st with
      m_lastCommandList :=
        [qs "xbps-remove -R " ++ listOfPackagestoRemove ++ qs ";",
         qs "xbps-install  " ++ listOfPackagestoInstall ++ qs ";"] ++ pressAnyKeyTail env,
      m_commandExecuting := ectn_REMOVE_INSTALL },
   UnixCall.executeCommand
    (qs "xbps-remove -R -y " ++ listOfPackagestoRemove ++ qs "; xbps-install " ++
      listOfPackagestoInstall))

def doRemoveAndInstallInTerminal (env : Env) (st : XBPSExec)
    (listOfPackagestoRemove listOfPackagestoInstall : QString) : XBPSExec × UnixCall :=
  let l := [qs "xbps-remove -R  " ++ listOfPackagestoRemove ++ qs ";",
            qs "xbps-install  " ++ listOfPackagestoInstall ++ qs ";"] ++ pressAnyKeyTail env
  ({ st with m_lastCommandList := l, m_commandExecuting := ectn_RUN_IN_TERMINAL },
   UnixCall.runCommandInTerminal l)

def doSystemUpgrade (env : Env) (st : XBPSExec) : XBPSExec × UnixCall :=
  ({ st with
      m_lastCommandList := [qs "xbps-install -u;"] ++ pressAnyKeyTail env,
      m_commandExecuting := ectn_SYSTEM_UPGRADE },
   UnixCall.executeCommand (qs "xbps-install -u -y"))

def doSystemUpgradeInTerminal (env : Env) (st : XBPSExec) : XBPSExec × UnixCall :=
  let l := [qs "pacman -Su;"] ++ pressAnyKeyTail env
  ({ st with m_lastCommandList := l, m_commandExecuting := ectn_RUN_SYSTEM_UPGRADE_IN_TERMINAL },
   UnixCall.runCommandInTerminal l)

def doSyncDatabase (env : Env) (st : XBPSExec) : XBPSExec × UnixCall :=
  let command := if env.isRootRunning then qs "xbps-install -Sy" else qs "xbps-install -Syy"
  let command :=
    if env.hasTheExecutable (qs "pkgfile") && !env.isRootRunning then command ++ qs "; pkgfile -u"
    else command
  ({ st with m_commandExecuting := ectn_SYNC_DATABASE }, UnixCall.executeCommand command)

def runLastestCommandInTerminal (st : XBPSExec) : XBPSExec × UnixCall :=
  ({ st with m_commandExecuting := ectn_RUN_IN_TERMINAL },
   UnixCall.runCommandInTerminal st.m_lastCommandList)

/-- A call of one of the command entry points, with its arguments. -/
inductive EntryPoint where
  | cleanCache
  | install (listOfPackages : QString)
  | installInTerminal (listOfPackages : QString)
  | installLocal (listOfPackages : QString)
  | installLocalInTerminal (listOfPackages : QString)
  | remove (listOfPackages : QString)
  | removeInTerminal (listOfPackages : QString)
  | removeAndInstall (toRemove toInstall : QString)
  | removeAndInstallInTerminal (toRemove toInstall : QString)
  | systemUpgrade
  | systemUpgradeInTerminal
  | syncDatabase
  | lastestCommandInTerminal

/-- Runs the entry point named by `ep`. -/
def EntryPoint.run (env : Env) (st : XBPSExec) : EntryPoint → XBPSExec × UnixCall
  | cleanCache => doCleanCache st
  | install l => doInstall env st l
  | installInTerminal l => doInstallInTerminal env st l
  | installLocal l => doInstallLocal env st l
  | installLocalInTerminal l => doInstallLocalInTerminal env st l
  | remove l => doRemove env st l
  | removeInTerminal l => doRemoveInTerminal env st l
  | removeAndInstall r i => doRemoveAndInstall env st r i
  | removeAndInstallInTerminal r i => doRemoveAndInstallInTerminal env st r i
  | systemUpgrade => doSystemUpgrade env st
  | systemUpgradeInTerminal => doSystemUpgradeInTerminal env st
  | syncDatabase => doSyncDatabase env st
  | lastestCommandInTerminal => runLastestCommandInTerminal st

/-! ## Vocabulary of the properties -/

/-- Collaborators that answer "not installed" and leave texts without links untouched. -/
def plainEnv : Env where
  isPackageInstalled := fun _ => false
  makeURLClickable := fun s => s
  getPressAnyKey := qs "Press any key to continue..."
  isRootRunning := false
  hasTheExecutable := fun _ => false
  unicodeNd := fun _ => false

/-- A freshly constructed session running `op`. -/
def freshSession (op : CommandExecuting) : XBPSExec :=
  { m_commandExecuting := op, m_textPrinted := [], m_lastCommandList := [] }

/-- The texts among a list of signals. -/
def textsOf : List Event → List QString
  | [] => []
  | Event.textToPrintExt s :: es => s :: textsOf es
  | Event.percentage _ :: es => textsOf es

/-- The percentages among a list of signals. -/
def percentagesOf : List Event → List Int
  | [] => []
  | Event.percentage p :: es => p :: percentagesOf es
  | Event.textToPrintExt _ :: es => percentagesOf es

/-- Number of signals emitted for the input `T` along a sequence of
`prepareTextToPrint` calls in treat mode, started in `st`. -/
def emittedCount (env : Env) (T : QString) : XBPSExec → List (QString × TreatURLLinks) → Nat
  | _, [] => 0
  | st, (s, tl) :: calls =>
    let r := prepareTextToPrint env st s ectn_TREAT_STRING tl
    (if s = T then r.2.length else 0) + emittedCount env T r.1 calls

/-- One record `(<spaces><num>/<den>) <body>` of a transaction counter line. -/
structure CounterRecord where
  spaces : Nat
  num : QString
  den : QString
  body : QString

/-- The text of a record. -/
def CounterRecord.render (r : CounterRecord) : QString :=
  qs "(" ++ List.replicate r.spaces ' ' ++ r.num ++ qs "/" ++ r.den ++ qs ") " ++ r.body

/-- 0-3 spaces, 1-4 digits on each side of the slash, a non-empty body that
holds no counter pattern itself. -/
def CounterRecord.wellFormed (r : CounterRecord) : Bool :=
  decide (r.spaces ≤ 3) &&
  decide (1 ≤ r.num.length) && decide (r.num.length ≤ 4) && r.num.all isAsciiDigit &&
  decide (1 ≤ r.den.length) && decide (r.den.length ≤ 4) && r.den.all isAsciiDigit &&
  !r.body.isEmpty && !rxContains r.body counterRegExp

/-- The segment made of the records one after the other. -/
def renderAll : List CounterRecord → QString
  | [] => []
  | r :: rs => r.render ++ renderAll rs

/-- The conversion inside `QString::toInt()`: `none` when the text is not an
optional sign followed by decimal digits. `toInt` is this value, or 0 when
there is none or it does not fit an `int`. -/
def toIntParse (s : QString) : Option Int :=
  match trimmed s with
  | '-' :: ds => (decimal ds 0).map (fun n => -(n : Int))
  | '+' :: ds => (decimal ds 0).map (fun n => (n : Int))
  | ds => (decimal ds 0).map (fun n => (n : Int))

/-- A run of calls `prepareTextToPrint(S, ectn_DONT_TREAT_STRING, tl)`, one for
each entry of the list. -/
def bypassCalls (env : Env) (S : QString) : XBPSExec → List TreatURLLinks → XBPSExec × List Event
  | st, [] => (st, [])
  | st, tl :: tls =>
    let r1 := prepareTextToPrint env st S ectn_DONT_TREAT_STRING tl
    let r2 := bypassCalls env S r1.1 tls
    (r2.1, r1.2 ++ r2.2)

/-! ## Process event adapter (lines 516-568) -/

/-- Everything `XBPSExec` emits: the UI signals of the pipeline and the
lifecycle signals. -/
inductive Signal where
  | ui (e : Event)
  | started
  | readOutput
  | readOutputError
  | finished (exitCode : Int) (crashed : Bool)
  deriving DecidableEq, Repr

/-- The font-configuration warning removed at lines 529 and 559. -/
def fontconfigWarning : QString :=
  qs "Fontconfig warning: \"/etc/fonts/conf.d/50-user.conf\", line 14:"

/-- The deprecation notice removed at lines 530 and 560. -/
def fontsConfNotice : QString :=
  qs "reading configurations from ~/.fonts.conf is deprecated. please move it to /home/arnt/.config/fontconfig/fonts.conf manually"

/-- Lines 529-530 / 559-560: the helper boilerplate removal. -/
def removeHelperBoilerplate (output : QString) : QString :=
  remove (remove output fontconfigWarning) fontsConfNotice

/-- `XBPSExec::onReadOutput()`; `suCommand` is `WMHelper::getSUCommand()` and
`output` what `m_unixCommand->readAllStandardOutput()` returns. -/
def onReadOutput (env : Env) (suCommand : QString) (st : XBPSExec) (output : QString) :
    XBPSExec × List Signal :=
  if contains suCommand (qs "kdesu") then
    if st.m_commandExecuting = ectn_SYNC_DATABASE ∧
       contains output (qs "Usage: /usr/bin/kdesu [options] command") = true then
      (st, [Signal.readOutput])
    else
      let output := removeHelperBoilerplate output
      if !(trimmed output).isEmpty then
        let r := splitOutputStrings env st output
        (r.1, r.2.1.map Signal.ui ++ [Signal.readOutput])
      else (st, [Signal.readOutput])
  else if contains suCommand (qs "gksu") then
    let output := trimmed output
    if !output.isEmpty &&
       indexOf output (qs ":: Synchronizing package databases...") == -1 &&
       indexOf output (qs ":: Starting full system upgrade...") == -1 then
      let r := prepareTextToPrint env st output ectn_TREAT_STRING ectn_TREAT_URL_LINK
      (r.1, r.2.map Signal.ui ++ [Signal.readOutput])
    else (st, [Signal.readOutput])
  else (st, [Signal.readOutput])

/-- `XBPSExec::onReadOutputError()`; `msg` is what
`m_unixCommand->readAllStandardError()` returns. -/
def onReadOutputError (env : Env) (st : XBPSExec) (msg : QString) : XBPSExec × List Signal :=
  let msg := removeHelperBoilerplate msg
  if !(trimmed msg).isEmpty then
    let r := splitOutputStrings env st msg
    (r.1, r.2.1.map Signal.ui ++ [Signal.readOutputError])
  else (st, [Signal.readOutputError])

/-! ## The suppression rules in the words of the specification -/

/-- Rules (a), (b), (c) of the formatter as the specification words them:
(a) "(" followed by a digit, or a digit followed by ")", in a text that holds
neither "target" nor "package" in any letter case; (b) the text begins, in any
letter case, with "Enter a selection" or "Proceed with"; (c) the text holds
"%", "---", "removed obsolete entry" or "avg rate". -/
def SuppressedBySpec (T : QString) : Prop :=
  ((∃ d, isAsciiDigit d = true ∧ (['(', d] <:+: T ∨ [d, ')'] <:+: T)) ∧
    ¬ (qs "target").map foldCase <:+: T.map foldCase ∧
    ¬ (qs "package").map foldCase <:+: T.map foldCase) ∨
  ((qs "Enter a selection").map foldCase <+: T.map foldCase ∨
    (qs "Proceed with").map foldCase <+: T.map foldCase) ∨
  (qs "%" <:+: T ∨ qs "---" <:+: T ∨ qs "removed obsolete entry" <:+: T ∨ qs "avg rate" <:+: T)

/-! ## Vocabulary for the line-break and noise-filter properties -/

/-- Number of positions of `s` at which `pat` occurs. -/
def occurrences (pat : QString) : QString → Nat
  | [] => if pat.isEmpty then 1 else 0
  | c :: cs => (if pat.isPrefixOf (c :: cs) then 1 else 0) + occurrences pat cs

/-- The prompt pattern `.+\[Y/n\].+` of line 195. -/
def promptRx : List Atom := [dotPlus, L "[Y/n]", dotPlus]

/-- One removal of the noise filter. -/
inductive NoiseRemoval where
  | prompt
  | literal (p : QString)
  deriving DecidableEq, Repr

/-- The effect of one removal on `msg`. -/
def NoiseRemoval.apply : NoiseRemoval → QString → QString
  | NoiseRemoval.prompt, msg => rxRemove msg promptRx
  | NoiseRemoval.literal p, msg => remove msg p

end XBPS

/-! # Theorems -/

namespace XBPS

open CommandExecuting TreatString TreatURLLinks

theorem indexOfFrom_ne_iff (pat s : QString) (i : Nat) :
    indexOfFrom pat s i ≠ -1 ↔ pat <:+: s := by
  induction s generalizing i with
  | nil =>
    unfold indexOfFrom
    cases pat with
    | nil => simp
    | cons a l => simp
  | cons c cs ih =>
    unfold indexOfFrom
    rw [List.infix_cons_iff]
    by_cases hp : pat.isPrefixOf (c :: cs) = true
    · simp only [hp, if_true]
      constructor
      · intro _; left; exact List.isPrefixOf_iff_prefix.mp hp
      · intro _; omega
    · simp only [hp, Bool.false_eq_true, if_false]
      rw [ih (i + 1)]
      constructor
      · intro h; right; exact h
      · intro h
        rcases h with h | h
        · exact absurd (List.isPrefixOf_iff_prefix.mpr h) hp
        · exact h

theorem contains_iff (s pat : QString) : contains s pat = true ↔ pat <:+: s := by
  unfold contains indexOf
  rw [← indexOfFrom_ne_iff pat s 0]
  simp

theorem contains_eq_false_iff (s pat : QString) : contains s pat = false ↔ ¬ pat <:+: s := by
  rw [← contains_iff]; simp

theorem stripPrefix_isSome (l s : QString) : (stripPrefix l s).isSome = l.isPrefixOf s := by
  induction l generalizing s with
  | nil => cases s <;> simp [stripPrefix]
  | cons a l ih =>
    cases s with
    | nil => simp [stripPrefix]
    | cons c s =>
      simp only [stripPrefix, List.isPrefixOf]
      by_cases h : a = c
      · simp [h, ih]
      · simp [h]

theorem matchHere_lit (l s : QString) : (matchHere [Atom.lit l] s).isSome = l.isPrefixOf s := by
  rw [← stripPrefix_isSome]
  simp only [matchHere]
  cases stripPrefix l s <;> simp

theorem rxIndexOfFrom_lit (l s : QString) (i : Nat) :
    rxIndexOfFrom [Atom.lit l] s i = indexOfFrom l s i := by
  induction s generalizing i with
  | nil =>
    simp only [rxIndexOfFrom, indexOfFrom, matchHere_lit]
    cases l <;> simp
  | cons c cs ih =>
    simp only [rxIndexOfFrom, indexOfFrom, matchHere_lit, ih]

theorem rxContains_lit (s l : QString) : rxContains s [Atom.lit l] = contains s l := by
  simp only [rxContains, rxIndexOf, contains, indexOf, rxIndexOfFrom_lit]

/-! ## The formatter: deduplication (C1) -/

theorem prepareTextToPrint_dropped (env : Env) (st : XBPSExec) (s : QString)
    (tl : TreatURLLinks) (h : unwantedString s = true ∨ s ∈ st.m_textPrinted) :
    prepareTextToPrint env st s ectn_TREAT_STRING tl = (st, []) := by
  unfold prepareTextToPrint
  by_cases hu : unwantedString s = true
  · simp [hu]
  · have hm : s ∈ st.m_textPrinted := h.resolve_left hu
    simp [hm]

theorem prepareTextToPrint_emitted (env : Env) (st : XBPSExec) (s : QString)
    (tl : TreatURLLinks) (hu : unwantedString s = false) (hm : s ∉ st.m_textPrinted) :
    prepareTextToPrint env st s ectn_TREAT_STRING tl =
      ({ st with m_textPrinted := st.m_textPrinted ++ [s] },
       [Event.textToPrintExt
         (if tl = ectn_TREAT_URL_LINK then env.makeURLClickable (frameText (styleText s))
          else frameText (styleText s))]) := by
  unfold prepareTextToPrint
  simp [hu, hm]

theorem prepareTextToPrint_cases (env : Env) (st : XBPSExec) (s : QString)
    (tl : TreatURLLinks) :
    prepareTextToPrint env st s ectn_TREAT_STRING tl = (st, []) ∨
    (unwantedString s = false ∧ s ∉ st.m_textPrinted ∧
      prepareTextToPrint env st s ectn_TREAT_STRING tl =
        ({ st with m_textPrinted := st.m_textPrinted ++ [s] },
         [Event.textToPrintExt
           (if tl = ectn_TREAT_URL_LINK then env.makeURLClickable (frameText (styleText s))
            else frameText (styleText s))])) := by
  by_cases hu : unwantedString s = true
  · exact Or.inl (prepareTextToPrint_dropped env st s tl (Or.inl hu))
  · by_cases hm : s ∈ st.m_textPrinted
    · exact Or.inl (prepareTextToPrint_dropped env st s tl (Or.inr hm))
    · have hu2 : unwantedString s = false := by simpa using hu
      exact Or.inr ⟨hu2, hm, prepareTextToPrint_emitted env st s tl hu2 hm⟩

theorem prepareTextToPrint_length_le (env : Env) (st : XBPSExec) (s : QString)
    (tl : TreatURLLinks) : (prepareTextToPrint env st s ectn_TREAT_STRING tl).2.length ≤ 1 := by
  rcases prepareTextToPrint_cases env st s tl with h | ⟨_, _, h⟩ <;> rw [h] <;> simp

theorem prepareTextToPrint_mem_mono (env : Env) (st : XBPSExec) (s x : QString)
    (tl : TreatURLLinks) (h : x ∈ st.m_textPrinted) :
    x ∈ (prepareTextToPrint env st s ectn_TREAT_STRING tl).1.m_textPrinted := by
  rcases prepareTextToPrint_cases env st s tl with h1 | ⟨_, _, h1⟩ <;> rw [h1]
  · exact h
  · simp [h]

theorem prepareTextToPrint_printed (env : Env) (st : XBPSExec) (s : QString)
    (tl : TreatURLLinks) (h : s ∈ st.m_textPrinted) :
    prepareTextToPrint env st s ectn_TREAT_STRING tl = (st, []) :=
  prepareTextToPrint_dropped env st s tl (Or.inr h)

theorem prepareTextToPrint_emits_mem (env : Env) (st : XBPSExec) (s : QString)
    (tl : TreatURLLinks) (h : (prepareTextToPrint env st s ectn_TREAT_STRING tl).2 ≠ []) :
    s ∈ (prepareTextToPrint env st s ectn_TREAT_STRING tl).1.m_textPrinted := by
  rcases prepareTextToPrint_cases env st s tl with h1 | ⟨_, _, h1⟩
  · rw [h1] at h; exact absurd rfl h
  · rw [h1]; simp

theorem emittedCount_of_mem (env : Env) (T : QString) (calls : List (QString × TreatURLLinks)) :
    ∀ st : XBPSExec, T ∈ st.m_textPrinted → emittedCount env T st calls = 0 := by
  induction calls with
  | nil => intro st _; rfl
  | cons c calls ih =>
    intro st h
    obtain ⟨s, tl⟩ := c
    simp only [emittedCount]
    rw [ih _ (prepareTextToPrint_mem_mono env st s T tl h)]
    by_cases hs : s = T
    · subst hs
      rw [prepareTextToPrint_printed env st s tl h]
      simp
    · simp [hs]

theorem emittedCount_le_one (env : Env) (T : QString) (calls : List (QString × TreatURLLinks)) :
    ∀ st : XBPSExec, emittedCount env T st calls ≤ 1 := by
  induction calls with
  | nil => intro st; simp [emittedCount]
  | cons c calls ih =>
    intro st
    obtain ⟨s, tl⟩ := c
    simp only [emittedCount]
    by_cases hs : s = T
    · subst hs
      simp only [if_true]
      by_cases he : (prepareTextToPrint env st s ectn_TREAT_STRING tl).2 = []
      · rw [he]; simpa using ih _
      · rw [emittedCount_of_mem env s calls _ (prepareTextToPrint_emits_mem env st s tl he)]
        simpa using prepareTextToPrint_length_le env st s tl
    · simp only [hs, if_false]
      simpa using ih _

/-- C1: in any sequence of `prepareTextToPrint` calls made in treat mode, from
any session state, at most one signal is emitted for the input `T`; and a second
call with `T` right after a first one emits nothing and leaves the session
(hence `m_textPrinted`) as the first call left it. -/
theorem C1_idempotent_dedup (env : Env) (st : XBPSExec) (T : QString)
    (calls : List (QString × TreatURLLinks)) (tl1 tl2 : TreatURLLinks) :
    emittedCount env T st calls ≤ 1 ∧
    prepareTextToPrint env (prepareTextToPrint env st T ectn_TREAT_STRING tl1).1 T
        ectn_TREAT_STRING tl2
      = ((prepareTextToPrint env st T ectn_TREAT_STRING tl1).1, []) := by
  refine ⟨emittedCount_le_one env T calls st, ?_⟩
  by_cases hd : unwantedString T = true ∨ T ∈ st.m_textPrinted
  · -- the first call was dropped, so is the second
    rw [prepareTextToPrint_dropped env st T tl1 hd]
    exact prepareTextToPrint_dropped env st T tl2 hd
  · -- the first call recorded `T`
    have hu : unwantedString T = false := by
      cases h : unwantedString T
      · rfl
      · exact absurd (Or.inl h) hd
    rw [prepareTextToPrint_emitted env st T tl1 hu (fun hm => hd (Or.inr hm))]
    exact prepareTextToPrint_printed env _ T tl2 (by simp)

/-! ## Terminal bypass (C3) -/

theorem parse_terminal (env : Env) (st : XBPSExec) (output : QString)
    (h : st.m_commandExecuting = ectn_RUN_IN_TERMINAL ∨
         st.m_commandExecuting = ectn_RUN_SYSTEM_UPGRADE_IN_TERMINAL) :
    parseXBPSProcessOutput env st output = (st, []) := by
  unfold parseXBPSProcessOutput
  simp [h]

theorem parseEach_terminal (env : Env) (st : XBPSExec) (cands : List QString)
    (h : st.m_commandExecuting = ectn_RUN_IN_TERMINAL ∨
         st.m_commandExecuting = ectn_RUN_SYSTEM_UPGRADE_IN_TERMINAL) :
    parseEach env st cands = (st, []) := by
  induction cands with
  | nil => rfl
  | cons c cs ih => simp [parseEach, parse_terminal env st c h, ih]

theorem splitEach_terminal (env : Env) (st : XBPSExec) (msgs : List QString)
    (h : st.m_commandExecuting = ectn_RUN_IN_TERMINAL ∨
         st.m_commandExecuting = ectn_RUN_SYSTEM_UPGRADE_IN_TERMINAL) :
    (splitEach env st msgs).1 = st ∧ (splitEach env st msgs).2.1 = [] := by
  induction msgs with
  | nil => exact ⟨rfl, rfl⟩
  | cons m ms ih => simp [splitEach, parseEach_terminal env st _ h, ih]

/-- C3: while the operation kind is `ectn_RUN_IN_TERMINAL` or
`ectn_RUN_SYSTEM_UPGRADE_IN_TERMINAL`, both `splitOutputStrings(chunk)` and
`parseXBPSProcessOutput(chunk)` emit no signal at all (no percentage, no text)
and leave the session, `m_textPrinted` included, unchanged. -/
theorem C3_terminal_bypass (env : Env) (st : XBPSExec) (chunk : QString)
    (h : st.m_commandExecuting = ectn_RUN_IN_TERMINAL ∨
         st.m_commandExecuting = ectn_RUN_SYSTEM_UPGRADE_IN_TERMINAL) :
    (splitOutputStrings env st chunk).1 = st ∧
    (splitOutputStrings env st chunk).2.1 = [] ∧
    parseXBPSProcessOutput env st chunk = (st, []) :=
  ⟨(splitEach_terminal env st _ h).1, (splitEach_terminal env st _ h).2,
   parse_terminal env st chunk h⟩

/-- The bypass on two chunks, one per terminal kind. -/
theorem C3_terminal_bypass_witness :
    (splitOutputStrings plainEnv
        { m_commandExecuting := ectn_RUN_IN_TERMINAL, m_textPrinted := [qs "seen"],
          m_lastCommandList := [] }
        (qs "foo-1.0_1: installed successfully.\n 45%")).2.1 = [] ∧
    (splitOutputStrings plainEnv (freshSession ectn_RUN_SYSTEM_UPGRADE_IN_TERMINAL)
        (qs "(1/2) installing foo")).2.1 = [] :=
  ⟨(C3_terminal_bypass plainEnv _ _ (Or.inl rfl)).2.1,
   (C3_terminal_bypass plainEnv _ _ (Or.inr rfl)).2.1⟩

/-! ## Rate / size / time suppression (C8) -/

theorem contains_of_infix (s p q : QString) (hq : q <:+: p) (h : contains s q = false) :
    contains s p = false := by
  rw [contains_eq_false_iff] at h ⊢
  exact fun hp => h (hq.trans hp)

theorem no_hundred_percent (msg : QString) (h : contains msg (qs "%") = false) :
    indexOf msg (qs "100%") = -1 := by
  have h1 : contains msg (qs "100%") = false :=
    contains_of_infix msg (qs "100%") (qs "%") ⟨qs "100", [], by decide⟩ h
  simpa [contains] using h1

theorem parse_suppressed (env : Env) (st : XBPSExec) (output : QString)
    (hpct : contains (noiseFilter output) (qs "%") = false)
    (hupd : contains (noiseFilter output) (qs "Updating") = false)
    (hsup : isRateSizeTime (noiseFilter output) = true) :
    parseXBPSProcessOutput env st output = (st, []) := by
  have h100 := no_hundred_percent _ hpct
  have hidx : indexOf (noiseFilter output) (qs "%") = -1 := by simpa [contains] using hpct
  unfold parseXBPSProcessOutput
  by_cases ht : st.m_commandExecuting = ectn_RUN_IN_TERMINAL ∨
      st.m_commandExecuting = ectn_RUN_SYSTEM_UPGRADE_IN_TERMINAL
  · simp [ht]
  · simp [ht, h100, isDownloadLine, isUpdatingLine, hpct, hupd, percentageOrText, hidx, hsup]

/-- C8: whatever the operation kind and the printed lines, a candidate whose
cleaned form holds no "%" and no "Updating" and holds "ETA", "KiB", "MiB",
"B/s", a match of `[0-9]+ B` or a match of `[0-9]{2}:[0-9]{2}` makes
`parseXBPSProcessOutput` emit nothing (no percentage, no text) and leave the
session, `m_textPrinted` included, unchanged. -/
theorem C8_rate_size_time_suppression (env : Env) (st : XBPSExec) (output : QString)
    (hpct : contains (noiseFilter output) (qs "%") = false)
    (hupd : contains (noiseFilter output) (qs "Updating") = false)
    (hsup : rxContains (noiseFilter output) [L "ETA"] = true ∨
            rxContains (noiseFilter output) [L "KiB"] = true ∨
            rxContains (noiseFilter output) [L "MiB"] = true ∨
            rxContains (noiseFilter output) [L "B/s"] = true ∨
            rxContains (noiseFilter output) [digitsPlus, L " B"] = true ∨
            rxContains (noiseFilter output)
              [Atom.cls isAsciiDigit 2 (some 2), L ":", Atom.cls isAsciiDigit 2 (some 2)] = true) :
    parseXBPSProcessOutput env st output = (st, []) := by
  apply parse_suppressed env st output hpct hupd
  unfold isRateSizeTime
  rcases hsup with h | h | h | h | h | h <;> simp [h]

/-- The witness of C8: "ETA 00:02". -/
theorem C8_rate_size_time_suppression_witness :
    parseXBPSProcessOutput plainEnv
        { m_commandExecuting := ectn_INSTALL, m_textPrinted := [qs "seen"],
          m_lastCommandList := [] }
        (qs "ETA 00:02") =
      ({ m_commandExecuting := ectn_INSTALL, m_textPrinted := [qs "seen"],
         m_lastCommandList := [] }, []) :=
  C8_rate_size_time_suppression plainEnv _ (qs "ETA 00:02") (by decide) (by decide)
    (Or.inl (by decide))

/-! ## Command entry points and the printed lines (C9) -/

/-- C9 (as the code has it): no command entry point touches `m_textPrinted`;
the printed lines after `doCleanCache`, `doSyncDatabase`, `doSystemUpgrade`,
`doInstall`, `doInstallLocal`, `doRemove`, `doRemoveAndInstall`, their
`*InTerminal` variants and `runLastestCommandInTerminal` are exactly the
printed lines before it, so a text printed before the call is not emitted
again by `prepareTextToPrint` after it. -/
theorem C9_entry_points_keep_printed (env : Env) (st : XBPSExec) (ep : EntryPoint)
    (T : QString) (tl : TreatURLLinks) (h : T ∈ st.m_textPrinted) :
    (ep.run env st).1.m_textPrinted = st.m_textPrinted ∧
    prepareTextToPrint env (ep.run env st).1 T ectn_TREAT_STRING tl = ((ep.run env st).1, []) := by
  have hk : (ep.run env st).1.m_textPrinted = st.m_textPrinted := by cases ep <;> rfl
  exact ⟨hk, prepareTextToPrint_printed env _ T tl (by rw [hk]; exact h)⟩

/-- `doInstall` after "foo" was printed. -/
theorem C9_entry_points_keep_printed_witness :
    (EntryPoint.run plainEnv
        { m_commandExecuting := ectn_CLEAN_CACHE, m_textPrinted := [qs "foo"],
          m_lastCommandList := [] }
        (EntryPoint.install (qs "bar"))).1.m_textPrinted = [qs "foo"] :=
  (C9_entry_points_keep_printed plainEnv
    { m_commandExecuting := ectn_CLEAN_CACHE, m_textPrinted := [qs "foo"],
      m_lastCommandList := [] }
    (EntryPoint.install (qs "bar")) (qs "foo") ectn_TREAT_URL_LINK (by decide)).1

/-- C9 refuted as stated: after "foo" was printed, `doInstall` leaves
`m_textPrinted` non-empty, and "foo" is not emitted again in the new command. -/
theorem C9_counterexample :
    (doInstall plainEnv
        (prepareTextToPrint plainEnv (freshSession ectn_CLEAN_CACHE) (qs "foo")
          ectn_TREAT_STRING ectn_TREAT_URL_LINK).1 (qs "bar")).1.m_textPrinted = [qs "foo"] ∧
    (prepareTextToPrint plainEnv
        (doInstall plainEnv
          (prepareTextToPrint plainEnv (freshSession ectn_CLEAN_CACHE) (qs "foo")
            ectn_TREAT_STRING ectn_TREAT_URL_LINK).1 (qs "bar")).1
        (qs "foo") ectn_TREAT_STRING ectn_TREAT_URL_LINK).2 = [] := by
  decide

/-! ## Section headers (C10) -/

theorem styleText_wraps (str : QString) : ∃ pre post, styleText str = pre ++ str ++ post := by
  unfold styleText
  split
  · exact ⟨_, _, rfl⟩
  · split
    · exact ⟨[], _, rfl⟩
    · split
      · exact ⟨_, _, rfl⟩
      · split
        · exact ⟨_, _, rfl⟩
        · split
          · exact ⟨_, _, rfl⟩
          · split
            · exact ⟨_, _, rfl⟩
            · exact ⟨[], [], by simp⟩

theorem frameText_section (x : QString) (h : contains x (qs "::") = true) :
    frameText x = qs "<br><B>" ++ x ++ qs "</B><br><br>" := by
  have hbr : rxContains (qs "<br><B>" ++ x ++ qs "</B><br><br>") [L "<br"] = true := by
    unfold L
    rw [rxContains_lit, contains_iff]
    exact ⟨[], qs "><B>" ++ x ++ qs "</B><br><br>", by simp [qs]⟩
  simp only [frameText, h, if_true, hbr]
  simp

/-- C10: a text `T` that holds "::", is not suppressed and is not yet among the
printed lines makes `prepareTextToPrint(T)` in treat mode (link-ification off,
or the identity) emit exactly one text; it starts with `<br><B>`, ends with
`</B><br><br>` and holds `T` in between. -/
theorem C10_section_header (env : Env) (st : XBPSExec) (T : QString) (tl : TreatURLLinks)
    (hsec : contains T (qs "::") = true)
    (hu : unwantedString T = false)
    (hm : T ∉ st.m_textPrinted)
    (hurl : tl = ectn_DONT_TREAT_URL_LINK ∨ ∀ s, env.makeURLClickable s = s) :
    ∃ pre post,
      (prepareTextToPrint env st T ectn_TREAT_STRING tl).2 =
        [Event.textToPrintExt (qs "<br><B>" ++ (pre ++ T ++ post) ++ qs "</B><br><br>")] := by
  obtain ⟨pre, post, hs⟩ := styleText_wraps T
  refine ⟨pre, post, ?_⟩
  have hc : contains (styleText T) (qs "::") = true := by
    rw [hs, contains_iff]
    rw [contains_iff] at hsec
    exact hsec.trans ⟨pre, post, rfl⟩
  rw [prepareTextToPrint_emitted env st T tl hu hm, frameText_section _ hc, hs]
  rcases hurl with h | h
  · simp [h]
  · simp [h]

/-- The witness of C10: ":: Synchronizing package databases...". -/
theorem C10_section_header_witness :
    ∃ pre post,
      (prepareTextToPrint plainEnv (freshSession ectn_SYNC_DATABASE)
          (qs ":: Synchronizing package databases...") ectn_TREAT_STRING
          ectn_TREAT_URL_LINK).2 =
        [Event.textToPrintExt (qs "<br><B>" ++
          (pre ++ qs ":: Synchronizing package databases..." ++ post) ++ qs "</B><br><br>")] :=
  C10_section_header plainEnv (freshSession ectn_SYNC_DATABASE)
    (qs ":: Synchronizing package databases...") ectn_TREAT_URL_LINK
    (by decide) (by decide) (by decide) (Or.inr (fun _ => rfl))

/-! ## Percentage bounds (C2) -/

theorem length_dropWhile_le (p : Char → Bool) (s : QString) : (s.dropWhile p).length ≤ s.length :=
  (List.dropWhile_sublist p).length_le

theorem length_trimmed_le (s : QString) : (trimmed s).length ≤ s.length := by
  unfold trimmed
  rw [List.length_reverse]
  refine le_trans (length_dropWhile_le _ _) ?_
  rw [List.length_reverse]
  exact length_dropWhile_le _ _

theorem digit_le_nine (c : Char) (h : isAsciiDigit c = true) : c.toNat - 48 ≤ 9 := by
  simp only [isAsciiDigit, Bool.and_eq_true, decide_eq_true_eq] at h
  omega

theorem decimal_short (ds : QString) (n : Nat) (hl : ds.length ≤ 2)
    (h : decimal ds 0 = some n) : n ≤ 99 := by
  match ds, hl with
  | [], _ => simp [decimal] at h
  | [a], _ =>
    simp only [decimal] at h
    split at h
    · rename_i ha
      have := digit_le_nine a ha
      simp at h; omega
    · simp at h
  | [a, b], _ =>
    simp only [decimal] at h
    split at h
    · rename_i ha
      split at h
      · rename_i hb
        have := digit_le_nine a ha
        have := digit_le_nine b hb
        simp at h; omega
      · simp at h
    · simp at h
  | _ :: _ :: _ :: _, hl => simp at hl

theorem decimal_single (ds : QString) (n : Nat) (hl : ds.length ≤ 1)
    (h : decimal ds 0 = some n) : n ≤ 9 := by
  match ds, hl with
  | [], _ => simp [decimal] at h
  | [a], _ =>
    simp only [decimal] at h
    split at h
    · rename_i ha
      have := digit_le_nine a ha
      simp at h; omega
    · simp at h
  | _ :: _ :: _, hl => simp at hl

theorem intRange_bounds (v : Option Int) (hv : ∀ n, v = some n → -9 ≤ n ∧ n ≤ 99) :
    -9 ≤ (match v with
      | some n => if -2147483648 ≤ n ∧ n ≤ 2147483647 then n else 0
      | none => 0) ∧
    (match v with
      | some n => if -2147483648 ≤ n ∧ n ≤ 2147483647 then n else 0
      | none => 0) ≤ 99 := by
  cases v with
  | none => simp
  | some n =>
    have := hv n rfl
    simp only
    split <;> omega

theorem toInt_short (s : QString) (hl : s.length ≤ 2) : -9 ≤ toInt s ∧ toInt s ≤ 99 := by
  have ht : (trimmed s).length ≤ 2 := le_trans (length_trimmed_le s) hl
  unfold toInt
  generalize trimmed s = t at ht
  apply intRange_bounds
  intro n hn
  split at hn
  · rename_i ds
    cases hd : decimal ds 0 with
    | none => simp [hd] at hn
    | some k =>
      have hk := decimal_single ds k (by simp at ht; omega) hd
      simp [hd] at hn
      omega
  · rename_i ds
    cases hd : decimal ds 0 with
    | none => simp [hd] at hn
    | some k =>
      have hk := decimal_single ds k (by simp at ht; omega) hd
      simp [hd] at hn
      omega
  · cases hd : decimal t 0 with
    | none => simp [hd] at hn
    | some k =>
      have hk := decimal_short t k ht hd
      simp [hd] at hn
      omega

theorem toInt_left_short (q : QString) (hl : q.length ≤ 3 ∨ q = qs "100%") :
    -9 ≤ toInt (left q ((q.length : Int) - 1)) ∧ toInt (left q ((q.length : Int) - 1)) ≤ 100 := by
  rcases hl with hl | hl
  · have h : -9 ≤ toInt (left q ((q.length : Int) - 1)) ∧
        toInt (left q ((q.length : Int) - 1)) ≤ 99 := by
      apply toInt_short
      unfold left
      split
      · rename_i h
        rcases h with h | h
        · have : q.length = 0 := by omega
          omega
        · omega
      · rw [List.length_take]
        omega
    omega
  · subst hl; decide

theorem pickPerc_shape (msg perc : QString) (p : Int) (hperc : perc = qs "100%" ∨ perc = []) :
    (pickPerc msg perc p).length ≤ 3 ∨ pickPerc msg perc p = qs "100%" := by
  unfold pickPerc
  split
  · left
    exact le_trans (length_trimmed_le _) (by simp [mid])
  · split
    · left
      exact le_trans (length_trimmed_le _) (by simp [mid])
    · rcases hperc with hp | hp
      · right; exact hp
      · left; rw [hp]; simp

theorem emitPerc_bounds (q : QString) (hq : q.length ≤ 3 ∨ q = qs "100%")
    (P : Int) (h : Event.percentage P ∈ emitPerc q) : -9 ≤ P ∧ P ≤ 100 := by
  unfold emitPerc at h
  split at h
  · simp only [List.mem_singleton, Event.percentage.injEq] at h
    subst h
    exact toInt_left_short q hq
  · simp at h

theorem percentageStep_bounds (msg perc : QString) (hperc : perc = qs "100%" ∨ perc = [])
    (P : Int) (h : Event.percentage P ∈ percentageStep msg perc) : -9 ≤ P ∧ P ≤ 100 := by
  unfold percentageStep at h
  simp only at h
  split at h
  · simp at h
  · exact emitPerc_bounds _ (pickPerc_shape msg perc _ hperc) P h

theorem prepareTextToPrint_no_percentage (env : Env) (st : XBPSExec) (s : QString)
    (tl : TreatURLLinks) (P : Int) :
    Event.percentage P ∉ (prepareTextToPrint env st s ectn_TREAT_STRING tl).2 := by
  rcases prepareTextToPrint_cases env st s tl with h | ⟨_, _, h⟩ <;> rw [h] <;> simp

theorem printRemaining_no_percentage (env : Env) (st : XBPSExec) (msg : QString) (P : Int) :
    Event.percentage P ∉ (printRemaining env st msg).2 := by
  unfold printRemaining
  split
  · split
    · simp only
      split
      · exact prepareTextToPrint_no_percentage env st _ _ P
      · simp
    · exact prepareTextToPrint_no_percentage env st _ _ P
  · simp

theorem percentageOrText_bounds (env : Env) (st : XBPSExec) (msg perc : QString) (ct : Bool)
    (hperc : perc = qs "100%" ∨ perc = []) (P : Int)
    (h : Event.percentage P ∈ (percentageOrText env st msg perc ct).2) : -9 ≤ P ∧ P ≤ 100 := by
  unfold percentageOrText at h
  split at h
  · exact percentageStep_bounds msg perc hperc P h
  · split at h
    · simp at h
    · split at h
      · simp at h
      · exact absurd h (printRemaining_no_percentage env st _ P)

/-- C2 (as the code has it): every `percentage(P)` signal emitted by
`parseXBPSProcessOutput`, for every input string and every session state,
satisfies -9 ≤ P ≤ 100; the lower bound 0 is not kept because a sign in front
of the digit is parsed by `toInt`. -/
theorem C2_percentage_bounds (env : Env) (st : XBPSExec) (output : QString) (P : Int)
    (h : Event.percentage P ∈ (parseXBPSProcessOutput env st output).2) : -9 ≤ P ∧ P ≤ 100 := by
  unfold parseXBPSProcessOutput at h
  dsimp only at h
  generalize noiseFilter output = msg at h
  generalize (indexOf msg (qs "100%") != -1) = ct at h
  have hperc : (if ct = true then qs "100%" else []) = qs "100%" ∨
      (if ct = true then qs "100%" else []) = [] := by
    cases ct
    · right; rfl
    · left; rfl
  generalize (if ct = true then qs "100%" else []) = perc at h hperc
  have hev0 : Event.percentage P ∈ (if ct = true then [Event.percentage 100] else []) →
      -9 ≤ P ∧ P ≤ 100 := by
    intro h0
    cases ct
    · simp at h0
    · simp at h0; omega
  generalize (if ct = true then [Event.percentage 100] else []) = ev0 at h hev0
  by_cases ht : st.m_commandExecuting = ectn_RUN_IN_TERMINAL ∨
      st.m_commandExecuting = ectn_RUN_SYSTEM_UPGRADE_IN_TERMINAL
  · rw [if_pos ht] at h
    simp at h
  · rw [if_neg ht] at h
    by_cases hd : isDownloadLine msg = true
    · rw [if_pos hd] at h
      simp only [List.mem_append] at h
      rcases h with (h | h) | h
      · exact hev0 h
      · split at h
        · exact absurd h (prepareTextToPrint_no_percentage env st _ _ P)
        · simp at h
      · exact percentageOrText_bounds env _ _ _ _ hperc P h
    · rw [if_neg hd] at h
      by_cases hu : isUpdatingLine msg = true
      · rw [if_pos hu] at h
        split at h
        · exact hev0 h
        · simp only [List.mem_append] at h
          rcases h with h | h
          · exact hev0 h
          · split at h
            · exact absurd h (prepareTextToPrint_no_percentage env st _ _ P)
            · simp at h
      · rw [if_neg hu] at h
        simp only [List.mem_append] at h
        rcases h with h | h
        · exact hev0 h
        · exact percentageOrText_bounds env _ _ _ _ hperc P h

/-- The bound at the percentage 45 of "libfoo.xbps: 45% installed". -/
theorem C2_percentage_bounds_witness : (-9 : Int) ≤ 45 ∧ (45 : Int) ≤ 100 :=
  C2_percentage_bounds plainEnv (freshSession ectn_INSTALL) (qs "libfoo.xbps: 45% installed") 45
    (by decide)

/-- C2 refuted as stated: the candidate " -5%" makes `parseXBPSProcessOutput`
emit `percentage(-5)`, which is below 0. -/
theorem C2_counterexample :
    (parseXBPSProcessOutput plainEnv (freshSession ectn_INSTALL) (qs " -5%")).2 =
      [Event.percentage (-5)] := by
  decide

/-! ## The text branch of the classifier -/

theorem parse_text_branch (env : Env) (st : XBPSExec) (output : QString)
    (hop : ¬(st.m_commandExecuting = ectn_RUN_IN_TERMINAL ∨
             st.m_commandExecuting = ectn_RUN_SYSTEM_UPGRADE_IN_TERMINAL))
    (hpct : contains (noiseFilter output) (qs "%") = false)
    (hupd : isUpdatingLine (noiseFilter output) = false)
    (hsup : isRateSizeTime (noiseFilter output) = false) :
    parseXBPSProcessOutput env st output =
      match stripOrder (stripBoilerplate (noiseFilter output)) with
      | none => (st, [])
      | some m => printRemaining env st m := by
  have h100 := no_hundred_percent _ hpct
  have hidx : indexOf (noiseFilter output) (qs "%") = -1 := by simpa [contains] using hpct
  unfold parseXBPSProcessOutput
  simp [hop, h100, isDownloadLine, hpct, hupd, percentageOrText, hidx, hsup]

/-! ## The removal false-positive guard (C6) -/

/-- C6 (as the code has it): for a candidate, under a non-terminal operation
kind, whose cleaned form holds no "%", is not routed to the Updating branch and
passes the rate/size/time list, if the text `m` left after the boilerplate and
counter-prefix stripping holds "removing ", `m` followed by a space is not among
the printed lines, and the name `m.mid(9).trimmed()` neither holds "..." nor is
reported installed, then the parser emits nothing and changes nothing. -/
theorem C6_removal_guard (env : Env) (st : XBPSExec) (output m : QString)
    (hop : ¬(st.m_commandExecuting = ectn_RUN_IN_TERMINAL ∨
             st.m_commandExecuting = ectn_RUN_SYSTEM_UPGRADE_IN_TERMINAL))
    (hpct : contains (noiseFilter output) (qs "%") = false)
    (hupd : isUpdatingLine (noiseFilter output) = false)
    (hsup : isRateSizeTime (noiseFilter output) = false)
    (hm : stripOrder (stripBoilerplate (noiseFilter output)) = some m)
    (hrem : rxContains m [L "removing "] = true)
    (hprinted : m ++ qs " " ∉ st.m_textPrinted)
    (hdots : contains (trimmed (midFrom m 9)) (qs "...") = false)
    (hinst : env.isPackageInstalled (trimmed (midFrom m 9)) = false) :
    parseXBPSProcessOutput env st output = (st, []) := by
  rw [parse_text_branch env st output hop hpct hupd hsup, hm]
  have hidx : indexOf (trimmed (midFrom m 9)) (qs "...") = -1 := by simpa [contains] using hdots
  unfold printRemaining
  simp [hrem, hprinted, hidx, hinst]

/-- The witness of C6: "removing orphan-pkg", not installed, in a fresh session. -/
theorem C6_removal_guard_witness :
    parseXBPSProcessOutput plainEnv (freshSession ectn_REMOVE) (qs "removing orphan-pkg") =
      (freshSession ectn_REMOVE, []) :=
  C6_removal_guard plainEnv (freshSession ectn_REMOVE) (qs "removing orphan-pkg")
    (qs "removing orphan-pkg") (by decide) (by decide) (by decide) (by decide) (by decide)
    (by decide) (by decide) (by decide) rfl

/-- C6 refuted as stated, twice. In a fresh session the candidate
"removing pid 1234" has a cleaned form that holds no "%", is no Updating line,
passes the rate/size/time list and holds "removing "; the boilerplate removal
and `trimmed()` leave "removing", whose name part is empty, holds no "..." and
is not installed; yet the text is printed in red. And with
"removing orphan-pkg " (trailing space) among the printed lines, the candidate
"removing orphan-pkg", not installed, is printed in red as well. -/
theorem C6_counterexample :
    (contains (noiseFilter (qs "removing pid 1234")) (qs "%") = false ∧
     isUpdatingLine (noiseFilter (qs "removing pid 1234")) = false ∧
     isRateSizeTime (noiseFilter (qs "removing pid 1234")) = false ∧
     contains (noiseFilter (qs "removing pid 1234")) (qs "removing ") = true ∧
     stripOrder (stripBoilerplate (noiseFilter (qs "removing pid 1234"))) = some (qs "removing") ∧
     contains (trimmed (midFrom (qs "removing") 9)) (qs "...") = false ∧
     plainEnv.isPackageInstalled (trimmed (midFrom (qs "removing") 9)) = false ∧
     (parseXBPSProcessOutput plainEnv (freshSession ectn_REMOVE) (qs "removing pid 1234")).2 =
       [Event.textToPrintExt (qs "<b><font color=\"#E55451\">removing&nbsp;</font></b><br>")]) ∧
    (stripOrder (stripBoilerplate (noiseFilter (qs "removing orphan-pkg"))) =
       some (qs "removing orphan-pkg") ∧
     contains (trimmed (midFrom (qs "removing orphan-pkg") 9)) (qs "...") = false ∧
     plainEnv.isPackageInstalled (trimmed (midFrom (qs "removing orphan-pkg") 9)) = false ∧
     (parseXBPSProcessOutput plainEnv
        { m_commandExecuting := ectn_REMOVE, m_textPrinted := [qs "removing orphan-pkg "],
          m_lastCommandList := [] }
        (qs "removing orphan-pkg")).2 =
       [Event.textToPrintExt
         (qs "<b><font color=\"#E55451\">removing orphan-pkg&nbsp;</font></b><br>")]) := by
  decide

/-! ## The "installing" scenario (C5) -/

/-- C5 (as the code has it): in a fresh session under a non-terminal operation
kind, the line "installing foo-1.0-1" makes the parser emit exactly one text,
the line itself without any colour or bold tag followed by exactly one `<br>`
(lower-case "installing" is no keyword of the green list); feeding the same line
again emits nothing further. Link-ification is taken as the identity on this
text. -/
theorem C5_installing_scenario (env : Env) (op : CommandExecuting) (cmds : List QString)
    (hop : ¬(op = ectn_RUN_IN_TERMINAL ∨ op = ectn_RUN_SYSTEM_UPGRADE_IN_TERMINAL))
    (hurl : env.makeURLClickable (qs "installing foo-1.0-1<br>") = qs "installing foo-1.0-1<br>") :
    parseXBPSProcessOutput env
        { m_commandExecuting := op, m_textPrinted := [], m_lastCommandList := cmds }
        (qs "installing foo-1.0-1") =
      ({ m_commandExecuting := op, m_textPrinted := [qs "installing foo-1.0-1"],
         m_lastCommandList := cmds },
       [Event.textToPrintExt (qs "installing foo-1.0-1<br>")]) ∧
    parseXBPSProcessOutput env
        { m_commandExecuting := op, m_textPrinted := [qs "installing foo-1.0-1"],
          m_lastCommandList := cmds }
        (qs "installing foo-1.0-1") =
      ({ m_commandExecuting := op, m_textPrinted := [qs "installing foo-1.0-1"],
         m_lastCommandList := cmds }, []) := by
  have hm : stripOrder (stripBoilerplate (noiseFilter (qs "installing foo-1.0-1"))) =
      some (qs "installing foo-1.0-1") := by decide
  have hne : (qs "installing foo-1.0-1").isEmpty = false := by decide
  have hrem : rxContains (qs "installing foo-1.0-1") [L "removing "] = false := by decide
  have hu : unwantedString (qs "installing foo-1.0-1") = false := by decide
  have hf : frameText (styleText (qs "installing foo-1.0-1")) = qs "installing foo-1.0-1<br>" := by
    decide
  constructor
  · rw [parse_text_branch env _ _ hop (by decide) (by decide) (by decide), hm]
    have hp : ∀ s : XBPSExec, printRemaining env s (qs "installing foo-1.0-1") =
        prepareTextToPrint env s (qs "installing foo-1.0-1") ectn_TREAT_STRING
          ectn_TREAT_URL_LINK := by
      intro s
      simp [printRemaining, hne, hrem]
    show printRemaining env _ (qs "installing foo-1.0-1") = _
    rw [hp, prepareTextToPrint_emitted env _ _ _ hu (by simp), hf]
    simp [hurl]
  · rw [parse_text_branch env _ _ hop (by decide) (by decide) (by decide), hm]
    have hp : ∀ s : XBPSExec, printRemaining env s (qs "installing foo-1.0-1") =
        prepareTextToPrint env s (qs "installing foo-1.0-1") ectn_TREAT_STRING
          ectn_TREAT_URL_LINK := by
      intro s
      simp [printRemaining, hne, hrem]
    show printRemaining env _ (qs "installing foo-1.0-1") = _
    rw [hp, prepareTextToPrint_printed env _ _ _ (by simp)]

/-- The scenario of C5 with the plain collaborators. -/
theorem C5_installing_scenario_witness :
    (parseXBPSProcessOutput plainEnv (freshSession ectn_INSTALL) (qs "installing foo-1.0-1")).2 =
      [Event.textToPrintExt (qs "installing foo-1.0-1<br>")] :=
  congrArg Prod.snd
    (C5_installing_scenario plainEnv ectn_INSTALL [] (by decide) rfl).1

/-- C5 refuted as stated: the text emitted for "installing foo-1.0-1" is not the
bold green one. -/
theorem C5_counterexample :
    (parseXBPSProcessOutput plainEnv (freshSession ectn_INSTALL) (qs "installing foo-1.0-1")).2 ≠
      [Event.textToPrintExt
        (qs "<b><font color=\"#4BC413\">installing foo-1.0-1</font></b><br>")] := by
  decide

/-! ## Download-target precedence (C4) -/

theorem textsOf_append (a b : List Event) : textsOf (a ++ b) = textsOf a ++ textsOf b := by
  induction a with
  | nil => rfl
  | cons e es ih => cases e <;> simp [textsOf, ih]

theorem textsOf_emitPerc (q : QString) : textsOf (emitPerc q) = [] := by
  unfold emitPerc
  split <;> rfl

theorem textsOf_percentageStep (msg perc : QString) : textsOf (percentageStep msg perc) = [] := by
  unfold percentageStep
  simp only
  split
  · rfl
  · exact textsOf_emitPerc _

theorem indexOfFrom_single (c : Char) (s : QString) (i : Nat) :
    (indexOfFrom [c] s i = -1 ∧ c ∉ s) ∨
    ∃ k : Nat, indexOfFrom [c] s i = ((i + k : Nat) : Int) ∧ k < s.length ∧ c ∉ s.take k := by
  induction s generalizing i with
  | nil => left; simp [indexOfFrom]
  | cons d ds ih =>
    unfold indexOfFrom
    by_cases hcd : c = d
    · right
      refine ⟨0, ?_, by simp, by simp⟩
      simp [hcd, List.isPrefixOf]
    · have hp : List.isPrefixOf [c] (d :: ds) = false := by simp [List.isPrefixOf, hcd]
      rw [hp]
      simp only [Bool.false_eq_true, if_false]
      rcases ih (i + 1) with ⟨h1, h2⟩ | ⟨k, h1, h2, h3⟩
      · left
        exact ⟨h1, by simp [hcd, h2]⟩
      · right
        refine ⟨k + 1, ?_, by simp; omega, ?_⟩
        · rw [h1]; congr 1; omega
        · simp [List.take, hcd, h3]

theorem downloadTarget_no_colon (msg : QString) : ':' ∉ downloadTarget msg := by
  unfold downloadTarget indexOf
  have hq : qs ":" = [':'] := rfl
  rw [hq]
  rcases indexOfFrom_single ':' msg 0 with ⟨h1, h2⟩ | ⟨k, h1, h2, h3⟩
  · rw [h1]
    simpa [left] using h2
  · rw [h1]
    have : ¬((((0 + k : Nat) : Int) < 0) ∨ (msg.length : Int) ≤ ((0 + k : Nat) : Int)) := by omega
    simp only [left, this, if_false]
    simpa using h3

theorem not_contains_of_not_mem (x p : QString) (c : Char) (hc : c ∈ p) (hx : c ∉ x) :
    contains x p = false := by
  rw [contains_eq_false_iff]
  intro h
  exact hx (h.subset hc)

/-- The orange bold wrapper of line 235. -/
theorem orange_no_colon (t : QString) (h : ':' ∉ t) :
    ':' ∉ qs "<b><font color=\"#FF8040\">" ++ t ++ qs "</font></b>" := by
  simp only [List.mem_append, not_or]
  exact ⟨⟨by decide, h⟩, by decide⟩

theorem orange_has_font (t : QString) :
    rxContains (qs "<b><font color=\"#FF8040\">" ++ t ++ qs "</font></b>") [L "<font color"] =
      true := by
  unfold L
  rw [rxContains_lit, contains_iff]
  exact ⟨qs "<b>", qs "=\"#FF8040\">" ++ t ++ qs "</font></b>", by simp [qs]⟩

theorem frameText_orange (t : QString) (h : ':' ∉ t) :
    frameText (styleText (qs "<b><font color=\"#FF8040\">" ++ t ++ qs "</font></b>")) =
      qs "<b><font color=\"#FF8040\">" ++ t ++ qs "</font></b>" ++ qs "<br>" ∨
    frameText (styleText (qs "<b><font color=\"#FF8040\">" ++ t ++ qs "</font></b>")) =
      qs "<b>" ++ (qs "<b><font color=\"#FF8040\">" ++ t ++ qs "</font></b>") ++ qs "</b>" ++
        qs "<br>" ∨
    frameText (styleText (qs "<b><font color=\"#FF8040\">" ++ t ++ qs "</font></b>")) =
      qs "<b>" ++ (qs "<b><font color=\"#FF8040\">" ++ t ++ qs "</font></b>") ++ qs "</b>" := by
  have hS := orange_no_colon t h
  generalize hSdef : qs "<b><font color=\"#FF8040\">" ++ t ++ qs "</font></b>" = S at hS
  have hfont : rxContains S [L "<font color"] = true := by rw [← hSdef]; exact orange_has_font t
  unfold styleText
  by_cases hsum : rxContains S summaryRx = true
  · rw [if_pos hsum]
    have hc : contains (qs "<b>" ++ S ++ qs "</b>") (qs "::") = false := by
      apply not_contains_of_not_mem _ _ ':' (by decide)
      simp only [List.mem_append, not_or]
      exact ⟨⟨by decide, hS⟩, by decide⟩
    unfold frameText
    simp only [hc, Bool.false_eq_true, if_false]
    split
    · right; left; rfl
    · right; right; rfl
  · rw [if_neg hsum, if_pos hfont]
    left
    have hc : contains (S ++ qs "<br>") (qs "::") = false := by
      apply not_contains_of_not_mem _ _ ':' (by decide)
      simp only [List.mem_append, not_or]
      exact ⟨hS, by decide⟩
    have hbr : rxContains (S ++ qs "<br>") [L "<br"] = true := by
      unfold L
      rw [rxContains_lit, contains_iff]
      exact ⟨S, qs ">", by simp [qs]⟩
    unfold frameText
    simp [hc, hbr]

theorem parse_download_texts (env : Env) (st : XBPSExec) (output : QString)
    (hop : ¬(st.m_commandExecuting = ectn_RUN_IN_TERMINAL ∨
             st.m_commandExecuting = ectn_RUN_SYSTEM_UPGRADE_IN_TERMINAL))
    (hd : isDownloadLine (noiseFilter output) = true) :
    textsOf (parseXBPSProcessOutput env st output).2 =
      textsOf (if !st.m_textPrinted.contains (downloadTarget (noiseFilter output)) then
          prepareTextToPrint env st
            (qs "<b><font color=\"#FF8040\">" ++ downloadTarget (noiseFilter output) ++
              qs "</font></b>") ectn_TREAT_STRING ectn_TREAT_URL_LINK
        else (st, [])).2 := by
  have hp : indexOf (noiseFilter output) (qs "%") ≠ -1 := by
    simp only [isDownloadLine, Bool.and_eq_true] at hd
    simpa [contains] using hd.2
  unfold parseXBPSProcessOutput
  dsimp only
  generalize noiseFilter output = msg at hd hp ⊢
  rw [if_neg hop, if_pos hd]
  simp only [textsOf_append]
  have h0 : textsOf (if (indexOf msg (qs "100%") != -1) = true then [Event.percentage 100]
      else []) = [] := by
    split <;> rfl
  have h2 : ∀ s perc ct, textsOf (percentageOrText env s msg perc ct).2 = [] := by
    intro s perc ct
    unfold percentageOrText
    simp [hp, textsOf_percentageStep]
  rw [h0, h2]
  simp

/-- C4: for a candidate, under a non-terminal operation kind, whose cleaned form
holds ".xbps:" or ".xbps.sig:" and also "%", the texts emitted by the classifier
are either none or the single download-target line: the text before the first
colon in orange bold (`<b><font color="#FF8040">…</font></b>`), closed by a
line break and possibly put inside one more bold tag. The candidate itself is
never emitted as a generic or green text. -/
theorem C4_download_target_precedence (env : Env) (st : XBPSExec) (output : QString)
    (hop : ¬(st.m_commandExecuting = ectn_RUN_IN_TERMINAL ∨
             st.m_commandExecuting = ectn_RUN_SYSTEM_UPGRADE_IN_TERMINAL))
    (hx : contains (noiseFilter output) (qs ".xbps:") = true ∨
          contains (noiseFilter output) (qs ".xbps.sig:") = true)
    (hp : contains (noiseFilter output) (qs "%") = true) :
    textsOf (parseXBPSProcessOutput env st output).2 = [] ∨
    textsOf (parseXBPSProcessOutput env st output).2 =
      [env.makeURLClickable
        (qs "<b><font color=\"#FF8040\">" ++ downloadTarget (noiseFilter output) ++
          qs "</font></b>" ++ qs "<br>")] ∨
    textsOf (parseXBPSProcessOutput env st output).2 =
      [env.makeURLClickable
        (qs "<b>" ++ (qs "<b><font color=\"#FF8040\">" ++ downloadTarget (noiseFilter output) ++
          qs "</font></b>") ++ qs "</b>" ++ qs "<br>")] ∨
    textsOf (parseXBPSProcessOutput env st output).2 =
      [env.makeURLClickable
        (qs "<b>" ++ (qs "<b><font color=\"#FF8040\">" ++ downloadTarget (noiseFilter output) ++
          qs "</font></b>") ++ qs "</b>")] := by
  have hd : isDownloadLine (noiseFilter output) = true := by
    unfold isDownloadLine
    rcases hx with h | h <;> simp [h, hp]
  rw [parse_download_texts env st output hop hd]
  split
  · rcases prepareTextToPrint_cases env st
      (qs "<b><font color=\"#FF8040\">" ++ downloadTarget (noiseFilter output) ++
        qs "</font></b>") ectn_TREAT_URL_LINK with h | ⟨_, _, h⟩
    · left; rw [h]; rfl
    · right
      rw [h]
      simp only [if_true, textsOf]
      rcases frameText_orange _ (downloadTarget_no_colon (noiseFilter output)) with hf | hf | hf
      · left; rw [hf]
      · right; left; rw [hf]
      · right; right; rw [hf]
  · left; rfl

/-- The witness of C4: "libfoo.xbps: 45% installed" in a fresh session emits the
orange bold target "libfoo.xbps" and the percentage 45, and no "installed" line. -/
theorem C4_download_target_precedence_witness :
    (parseXBPSProcessOutput plainEnv (freshSession ectn_INSTALL)
        (qs "libfoo.xbps: 45% installed")).2 =
      [Event.textToPrintExt (qs "<b><font color=\"#FF8040\">libfoo.xbps</font></b><br>"),
       Event.percentage 45] ∧
    (textsOf (parseXBPSProcessOutput plainEnv (freshSession ectn_INSTALL)
        (qs "libfoo.xbps: 45% installed")).2 = [] ∨
     textsOf (parseXBPSProcessOutput plainEnv (freshSession ectn_INSTALL)
        (qs "libfoo.xbps: 45% installed")).2 =
      [plainEnv.makeURLClickable
        (qs "<b><font color=\"#FF8040\">" ++
          downloadTarget (noiseFilter (qs "libfoo.xbps: 45% installed")) ++
          qs "</font></b>" ++ qs "<br>")] ∨
     textsOf (parseXBPSProcessOutput plainEnv (freshSession ectn_INSTALL)
        (qs "libfoo.xbps: 45% installed")).2 =
      [plainEnv.makeURLClickable
        (qs "<b>" ++ (qs "<b><font color=\"#FF8040\">" ++
          downloadTarget (noiseFilter (qs "libfoo.xbps: 45% installed")) ++
          qs "</font></b>") ++ qs "</b>" ++ qs "<br>")] ∨
     textsOf (parseXBPSProcessOutput plainEnv (freshSession ectn_INSTALL)
        (qs "libfoo.xbps: 45% installed")).2 =
      [plainEnv.makeURLClickable
        (qs "<b>" ++ (qs "<b><font color=\"#FF8040\">" ++
          downloadTarget (noiseFilter (qs "libfoo.xbps: 45% installed")) ++
          qs "</font></b>") ++ qs "</b>")]) :=
  ⟨by decide,
   C4_download_target_precedence plainEnv (freshSession ectn_INSTALL)
     (qs "libfoo.xbps: 45% installed") (by decide) (Or.inl (by decide)) (by decide)⟩

/-! ## Regular-expression matching: literals and greedy classes -/

theorem stripPrefix_append (l s : QString) : stripPrefix l (l ++ s) = some s := by
  induction l with
  | nil => cases s <;> rfl
  | cons a l ih => simp [stripPrefix, ih]

theorem stripPrefix_some (l s s1 : QString) (h : stripPrefix l s = some s1) : s = l ++ s1 := by
  induction l generalizing s with
  | nil =>
    cases s <;> simp [stripPrefix] at h <;> simp [h]
  | cons a l ih =>
    cases s with
    | nil => simp [stripPrefix] at h
    | cons c s =>
      simp only [stripPrefix] at h
      split at h
      · rename_i hac
        rw [hac, ih s h]
        rfl
      · simp at h

theorem matchHere_lit_append (l : QString) (r : List Atom) (s : QString) :
    matchHere (Atom.lit l :: r) (l ++ s) = matchHere r s := by
  simp [matchHere, stripPrefix_append]

theorem matchHere_lit_some (l : QString) (r : List Atom) (s x : QString)
    (h : matchHere (Atom.lit l :: r) s = some x) : ∃ s1, s = l ++ s1 ∧ matchHere r s1 = some x := by
  simp only [matchHere] at h
  split at h
  · rename_i s1 hs
    exact ⟨s1, stripPrefix_some l s s1 hs, h⟩
  · simp at h

theorem firstSome_some (f : QString → Option QString) (l : List QString) (y : QString)
    (h : firstSome f l = some y) : ∃ x ∈ l, f x = some y := by
  induction l with
  | nil => simp [firstSome] at h
  | cons x xs ih =>
    simp only [firstSome] at h
    split at h
    · rename_i r hr
      simp only [Option.some.injEq] at h
      exact ⟨x, by simp, by rw [hr, h]⟩
    · obtain ⟨x1, hx1, hf⟩ := ih h
      exact ⟨x1, by simp [hx1], hf⟩

theorem takeWhile_length_prefix (p : Char → Bool) (s : QString) (j : Nat)
    (hj : j ≤ (s.takeWhile p).length) : (s.take j).all p = true := by
  induction s generalizing j with
  | nil => simp
  | cons c cs ih =>
    cases j with
    | zero => simp
    | succ j =>
      by_cases hc : p c = true
      · simp only [List.takeWhile_cons, hc, if_true, List.length_cons] at hj
        simp only [List.take_succ_cons, List.all_cons, hc, Bool.true_and]
        exact ih j (by omega)
      · simp [List.takeWhile_cons, hc] at hj

theorem mem_clsSplits (p : Char → Bool) (lo : Nat) (hi : Option Nat) (s x : QString)
    (h : x ∈ clsSplits p lo hi s) :
    ∃ a, s = a ++ x ∧ a.all p = true ∧ lo ≤ a.length ∧ (∀ m, hi = some m → a.length ≤ m) := by
  unfold clsSplits at h
  simp only at h
  split at h
  · simp at h
  · rename_i hn
    simp only [List.mem_map, List.mem_range] at h
    obtain ⟨k, hk, hx⟩ := h
    generalize hN : (match hi with
      | some h => min h (s.takeWhile p).length
      | none => (s.takeWhile p).length) = n at hn hk hx
    have hrun : n ≤ (s.takeWhile p).length := by
      cases hi with
      | none => simp at hN; omega
      | some m => simp at hN; omega
    have hlen : (s.takeWhile p).length ≤ s.length := (List.takeWhile_sublist p).length_le
    refine ⟨s.take (n - k), ?_, takeWhile_length_prefix p s (n - k) (by omega), ?_, ?_⟩
    · rw [← hx, List.take_append_drop]
    · rw [List.length_take]; omega
    · intro m hm
      rw [List.length_take]
      subst hm
      simp at hN
      omega

theorem matchHere_cls_some (p : Char → Bool) (lo : Nat) (hi : Option Nat) (r : List Atom)
    (s x : QString) (h : matchHere (Atom.cls p lo hi :: r) s = some x) :
    ∃ a b, s = a ++ b ∧ a.all p = true ∧ lo ≤ a.length ∧ (∀ m, hi = some m → a.length ≤ m) ∧
      matchHere r b = some x := by
  simp only [matchHere] at h
  obtain ⟨b, hb, hf⟩ := firstSome_some _ _ _ h
  obtain ⟨a, hs, ha, hlo, hhi⟩ := mem_clsSplits p lo hi s b hb
  exact ⟨a, b, hs, ha, hlo, hhi, hf⟩

theorem takeWhile_append_stop (p : Char → Bool) (a b : QString) (ha : a.all p = true)
    (hb : ∀ c ∈ b.head?, p c = false) : (a ++ b).takeWhile p = a := by
  induction a with
  | nil =>
    cases b with
    | nil => rfl
    | cons c cs =>
      have := hb c (by simp)
      simp [List.takeWhile_cons, this]
  | cons c cs ih =>
    simp only [List.all_cons, Bool.and_eq_true] at ha
    simp [List.takeWhile_cons, ha.1, ih ha.2]

theorem matchHere_cls_greedy (p : Char → Bool) (lo : Nat) (hi : Option Nat) (r : List Atom)
    (a b x : QString) (ha : a.all p = true) (hb : ∀ c ∈ b.head?, p c = false)
    (hlo : lo ≤ a.length) (hhi : ∀ m, hi = some m → a.length ≤ m)
    (hr : matchHere r b = some x) :
    matchHere (Atom.cls p lo hi :: r) (a ++ b) = some x := by
  simp only [matchHere]
  unfold clsSplits
  simp only [takeWhile_append_stop p a b ha hb]
  have hlt : ¬ a.length < lo := by omega
  cases hi with
  | none =>
    simp only [hlt, if_false]
    rw [List.range_succ_eq_map]
    simp [firstSome, hr]
  | some m =>
    have hm : min m a.length = a.length := by simp [hhi m rfl]
    simp only [hm, hlt, if_false]
    rw [List.range_succ_eq_map]
    simp [firstSome, hr]

/-! ## The counter pattern -/

theorem counterRegExp_eq :
    counterRegExp =
      [Atom.lit ['('], Atom.cls isSpace 0 (some 3), Atom.cls isAsciiDigit 1 (some 4),
       Atom.lit ['/'], Atom.cls isAsciiDigit 1 (some 4), Atom.lit [')', ' ']] := rfl

theorem digit_not_space (c : Char) (h : isAsciiDigit c = true) : isSpace c = false := by
  simp only [isAsciiDigit, Bool.and_eq_true, decide_eq_true_eq] at h
  have h1 : ¬ c.toNat = 32 := by omega
  have h2 : ¬ c.toNat ≤ 13 := by omega
  have h3 : ¬ c.toNat > 127 := by omega
  simp [isSpace, h1, h2, h3]

theorem head_digit (d rest : QString) (p : Char → Bool) (hd : d.all isAsciiDigit = true)
    (hlen : 1 ≤ d.length) (hp : ∀ c, isAsciiDigit c = true → p c = false) :
    ∀ c ∈ (d ++ rest).head?, p c = false := by
  cases d with
  | nil => simp at hlen
  | cons a as =>
    intro c hc
    simp only [List.cons_append, List.head?_cons, Option.mem_def, Option.some.injEq] at hc
    simp only [List.all_cons, Bool.and_eq_true] at hd
    exact hp c (hc ▸ hd.1)

/-- Completeness: a well-shaped counter at the front is matched, whatever follows. -/
theorem counter_complete (sp d1 d2 x : QString)
    (hsp : sp.all isSpace = true) (hspl : sp.length ≤ 3)
    (hd1 : d1.all isAsciiDigit = true) (h1lo : 1 ≤ d1.length) (h1hi : d1.length ≤ 4)
    (hd2 : d2.all isAsciiDigit = true) (h2lo : 1 ≤ d2.length) (h2hi : d2.length ≤ 4) :
    matchHere counterRegExp (['('] ++ (sp ++ (d1 ++ (['/'] ++ (d2 ++ ([')', ' '] ++ x)))))) =
      some x := by
  rw [counterRegExp_eq, matchHere_lit_append]
  apply matchHere_cls_greedy isSpace 0 (some 3) _ sp _ x hsp
    (head_digit d1 _ isSpace hd1 h1lo digit_not_space) (Nat.zero_le _)
    (fun m hm => by simp at hm; omega)
  apply matchHere_cls_greedy isAsciiDigit 1 (some 4) _ d1 _ x hd1
    (by intro c hc; simp at hc; subst hc; decide) h1lo (fun m hm => by simp at hm; omega)
  rw [matchHere_lit_append]
  apply matchHere_cls_greedy isAsciiDigit 1 (some 4) _ d2 _ x hd2
    (by intro c hc; simp at hc; subst hc; decide) h2lo (fun m hm => by simp at hm; omega)
  rw [matchHere_lit_append]
  rfl

/-- Soundness: what the counter pattern matches at the front has the counter shape. -/
theorem counter_sound (s x : QString) (h : matchHere counterRegExp s = some x) :
    ∃ sp d1 d2, s = ['('] ++ (sp ++ (d1 ++ (['/'] ++ (d2 ++ ([')', ' '] ++ x))))) ∧
      sp.all isSpace = true ∧ sp.length ≤ 3 ∧
      d1.all isAsciiDigit = true ∧ 1 ≤ d1.length ∧ d1.length ≤ 4 ∧
      d2.all isAsciiDigit = true ∧ 1 ≤ d2.length ∧ d2.length ≤ 4 := by
  rw [counterRegExp_eq] at h
  obtain ⟨s1, hs1, h⟩ := matchHere_lit_some _ _ _ _ h
  obtain ⟨sp, s2, hs2, hsp, -, hsphi, h⟩ := matchHere_cls_some _ _ _ _ _ _ h
  obtain ⟨d1, s3, hs3, hd1, h1lo, h1hi, h⟩ := matchHere_cls_some _ _ _ _ _ _ h
  obtain ⟨s4, hs4, h⟩ := matchHere_lit_some _ _ _ _ h
  obtain ⟨d2, s5, hs5, hd2, h2lo, h2hi, h⟩ := matchHere_cls_some _ _ _ _ _ _ h
  obtain ⟨s6, hs6, h⟩ := matchHere_lit_some _ _ _ _ h
  simp only [matchHere, Option.some.injEq] at h
  refine ⟨sp, d1, d2, ?_, hsp, hsphi 3 rfl, hd1, h1lo, h1hi 4 rfl, hd2, h2lo, h2hi 4 rfl⟩
  rw [hs1, hs2, hs3, hs4, hs5, hs6, h]

theorem all_not_mem (p : Char → Bool) (l : QString) (c : Char) (hl : l.all p = true)
    (hc : p c = false) : c ∉ l := by
  intro hm
  rw [List.all_eq_true] at hl
  have := hl c hm
  rw [hc] at this
  exact absurd this (by decide)

theorem prefix_of_append_eq (b t m x : QString) (c : Char) (hc : c ∉ m)
    (h : b ++ c :: t = m ++ x) : ∃ y, b = m ++ y := by
  rcases List.append_eq_append_iff.mp h with ⟨a, hm, ha⟩ | ⟨a, hb, -⟩
  · cases a with
    | nil => exact ⟨[], by simp [hm]⟩
    | cons a0 as =>
      simp only [List.cons_append, List.cons.injEq] at ha
      exact absurd (by rw [hm, ha.1]; simp) hc
  · exact ⟨a, hb⟩

/-- A counter match that starts inside `b` cannot run into a text that is empty
or starts with `(`: it lies inside `b`. -/
theorem counter_no_cross (b rest x : QString) (hb : b ≠ [])
    (hrest : rest = [] ∨ ∃ t, rest = '(' :: t)
    (h : matchHere counterRegExp (b ++ rest) = some x) :
    ∃ y, matchHere counterRegExp b = some y := by
  obtain ⟨sp, d1, d2, hs, hsp, hspl, hd1, h1lo, h1hi, hd2, h2lo, h2hi⟩ := counter_sound _ _ h
  rcases hrest with hr | ⟨t, hr⟩
  · subst hr
    rw [List.append_nil] at hs
    exact ⟨x, by rw [hs]; exact counter_complete sp d1 d2 x hsp hspl hd1 h1lo h1hi hd2 h2lo h2hi⟩
  · subst hr
    cases b with
    | nil => exact absurd rfl hb
    | cons c b1 =>
      simp only [List.cons_append, List.nil_append, List.cons.injEq] at hs
      obtain ⟨hc, hs⟩ := hs
      have hno : '(' ∉ sp ++ (d1 ++ ('/' :: (d2 ++ [')', ' ']))) := by
        simp only [List.mem_append, List.mem_cons, not_or]
        refine ⟨all_not_mem isSpace sp _ hsp (by decide),
          all_not_mem isAsciiDigit d1 _ hd1 (by decide), by decide,
          all_not_mem isAsciiDigit d2 _ hd2 (by decide), ?_⟩
        simp
      have hs2 : b1 ++ '(' :: t = (sp ++ (d1 ++ ('/' :: (d2 ++ [')', ' '])))) ++ x := by
        rw [hs]; simp
      obtain ⟨y, hy⟩ := prefix_of_append_eq b1 t _ x '(' hno hs2
      refine ⟨y, ?_⟩
      have := counter_complete sp d1 d2 y hsp hspl hd1 h1lo h1hi hd2 h2lo h2hi
      rw [hc, hy]
      simpa using this

/-! ## Splitting on a pattern -/

theorem rxIndexOfFrom_none (rx : List Atom) (s : QString) (i : Nat)
    (h : rxIndexOfFrom rx s i = -1) : ∀ t, t <:+ s → matchHere rx t = none := by
  induction s generalizing i with
  | nil =>
    intro t ht
    simp only [List.suffix_nil] at ht
    subst ht
    simp only [rxIndexOfFrom] at h
    split at h
    · omega
    · rename_i hn
      simpa using hn
  | cons c cs ih =>
    intro t ht
    simp only [rxIndexOfFrom] at h
    split at h
    · omega
    · rename_i hn
      rcases List.suffix_cons_iff.mp ht with ht | ht
      · subst ht; simpa using hn
      · exact ih (i + 1) h t ht

theorem rxSplitAux_ne_nil (rx : List Atom) (s : QString) (k : Nat) : rxSplitAux rx s k ≠ [] := by
  induction s generalizing k with
  | nil => simp [rxSplitAux]
  | cons c cs ih =>
    cases k with
    | succ k => simp only [rxSplitAux]; exact ih k
    | zero =>
      simp only [rxSplitAux]
      split
      · split
        · simp
        · split <;> simp
      · split <;> simp

theorem rxSplitAux_skip (rx : List Atom) (a b : QString) :
    rxSplitAux rx (a ++ b) a.length = rxSplitAux rx b 0 := by
  induction a with
  | nil => cases b <;> simp [rxSplitAux]
  | cons c cs ih => simp [rxSplitAux, ih]

theorem rxSplitAux_cons_none (rx : List Atom) (c : Char) (cs : QString)
    (h : matchHere rx (c :: cs) = none) :
    rxSplitAux rx (c :: cs) 0 =
      match rxSplitAux rx cs 0 with
      | [] => [[c]]
      | part :: parts => (c :: part) :: parts := by
  simp only [rxSplitAux, h]

theorem rxSplitAux_cons_some (rx : List Atom) (c : Char) (cs m x : QString)
    (hm : c :: cs = m ++ x) (hne : m ≠ []) (h : matchHere rx (c :: cs) = some x) :
    rxSplitAux rx (c :: cs) 0 = [] :: rxSplitAux rx cs (m.length - 1) := by
  have hl : (c :: cs).length = m.length + x.length := by rw [hm, List.length_append]
  have hpos : 0 < m.length := List.length_pos.mpr hne
  have hlt : x.length < (c :: cs).length := by omega
  simp only [rxSplitAux, h, hlt, if_true]
  congr 2
  simp only [List.length_cons] at hl ⊢
  omega

theorem rxSplitAux_through (rx : List Atom) (b rest : QString)
    (h : ∀ t, t <:+ b → t ≠ [] → matchHere rx (t ++ rest) = none) :
    rxSplitAux rx (b ++ rest) 0 =
      match rxSplitAux rx rest 0 with
      | [] => [b]
      | part :: parts => (b ++ part) :: parts := by
  induction b with
  | nil =>
    simp only [List.nil_append]
    cases hr : rxSplitAux rx rest 0 with
    | nil => exact absurd hr (rxSplitAux_ne_nil rx rest 0)
    | cons p ps => rfl
  | cons c cs ih =>
    have hnone : matchHere rx (c :: (cs ++ rest)) = none := by
      simpa using h (c :: cs) (List.suffix_refl _) (by simp)
    have ih2 := ih (fun t ht hne => h t (ht.trans (List.suffix_cons c cs)) hne)
    rw [List.cons_append, rxSplitAux_cons_none rx c _ hnone, ih2]
    cases hr : rxSplitAux rx rest 0 with
    | nil => exact absurd hr (rxSplitAux_ne_nil rx rest 0)
    | cons p ps => rfl

/-! ## Splitter counter round-trip (C7) -/

theorem replicate_space_all (n : Nat) : (List.replicate n ' ').all isSpace = true := by
  induction n with
  | zero => rfl
  | succ n ih => simp only [List.replicate_succ, List.all_cons, ih]; decide

theorem renderAll_head (rs : List CounterRecord) :
    renderAll rs = [] ∨ ∃ t, renderAll rs = '(' :: t := by
  cases rs with
  | nil => left; rfl
  | cons r rs => right; exact ⟨_, rfl⟩

theorem render_eq (r : CounterRecord) (rest : QString) :
    r.render ++ rest =
      ['('] ++ (List.replicate r.spaces ' ' ++ (r.num ++ (['/'] ++ (r.den ++
        ([')', ' '] ++ (r.body ++ rest)))))) := by
  simp [CounterRecord.render, qs]

theorem rxSplitAux_renderAll (rs : List CounterRecord)
    (hwf : ∀ r ∈ rs, r.wellFormed = true) :
    rxSplitAux counterRegExp (renderAll rs) 0 = [] :: rs.map (fun r => r.body) := by
  induction rs with
  | nil => rfl
  | cons r rs ih =>
    have hr := hwf r (by simp)
    simp only [CounterRecord.wellFormed, Bool.and_eq_true, decide_eq_true_eq,
      Bool.not_eq_true'] at hr
    obtain ⟨⟨⟨⟨⟨⟨⟨⟨hsp, h1lo⟩, h1hi⟩, hd1⟩, h2lo⟩, h2hi⟩, hd2⟩, -⟩, hbody⟩ := hr
    have ih2 := ih (fun r1 h1 => hwf r1 (by simp [h1]))
    have hmatch : matchHere counterRegExp (r.render ++ renderAll rs) =
        some (r.body ++ renderAll rs) := by
      rw [render_eq]
      exact counter_complete _ _ _ _ (replicate_space_all _) (by simpa using hsp) hd1 h1lo h1hi
        hd2 h2lo h2hi
    -- no counter starts inside the body
    have hnone : ∀ t, t <:+ r.body → t ≠ [] →
        matchHere counterRegExp (t ++ renderAll rs) = none := by
      intro t ht hne
      cases hm : matchHere counterRegExp (t ++ renderAll rs) with
      | none => rfl
      | some x =>
        obtain ⟨y, hy⟩ := counter_no_cross t _ x hne (renderAll_head rs) hm
        have hidx : rxIndexOfFrom counterRegExp r.body 0 = -1 := by
          simpa [rxContains, rxIndexOf] using hbody
        rw [rxIndexOfFrom_none counterRegExp r.body 0 hidx t ht] at hy
        exact absurd hy (by simp)
    have hthrough := rxSplitAux_through counterRegExp r.body (renderAll rs) hnone
    rw [ih2] at hthrough
    -- the counter at the front is cut off
    have hfront : renderAll (r :: rs) =
        '(' :: ((List.replicate r.spaces ' ' ++ (r.num ++ (['/'] ++ (r.den ++ [')', ' '])))) ++
          (r.body ++ renderAll rs)) := by
      show r.render ++ renderAll rs = _
      rw [render_eq]; simp
    have hmatch2 : matchHere counterRegExp
        ('(' :: ((List.replicate r.spaces ' ' ++ (r.num ++ (['/'] ++ (r.den ++ [')', ' '])))) ++
          (r.body ++ renderAll rs))) = some (r.body ++ renderAll rs) := by
      rw [← hfront]; exact hmatch
    rw [hfront,
      rxSplitAux_cons_some counterRegExp '(' _
        ('(' :: (List.replicate r.spaces ' ' ++ (r.num ++ (['/'] ++ (r.den ++ [')', ' '])))))
        (r.body ++ renderAll rs) (by simp) (by simp) hmatch2]
    have hlen : ('(' :: (List.replicate r.spaces ' ' ++
        (r.num ++ (['/'] ++ (r.den ++ [')', ' ']))))).length - 1 =
        (List.replicate r.spaces ' ' ++ (r.num ++ (['/'] ++ (r.den ++ [')', ' '])))).length := by
      simp
    rw [hlen, rxSplitAux_skip, hthrough]
    simp

/-- C7: for a segment made of k ≥ 2 records `(<0-3 spaces><1-4 digits>/<1-4
digits>) <body>` whose bodies are non-empty and hold no counter pattern, the
candidates `splitOutputStrings` hands to the classifier for that segment are
exactly the k bodies, in order (so none of them holds a counter prefix): the
loop body for the segment, and `splitOutputStrings` on a chunk made of this
one segment, is the classifier run over the bodies, and `res` stays `true`. -/
theorem C7_counter_round_trip (env : Env) (st : XBPSExec) (rs : List CounterRecord)
    (hk : 2 ≤ rs.length) (hwf : ∀ r ∈ rs, r.wellFormed = true) :
    segmentCandidates env (renderAll rs) = (rs.map (fun r => r.body), true) ∧
    (segmentCandidates env (renderAll rs)).1.length = rs.length ∧
    (∀ c ∈ (segmentCandidates env (renderAll rs)).1, rxContains c counterRegExp = false) ∧
    splitEach env st [renderAll rs] =
      ((parseEach env st (rs.map (fun r => r.body))).1,
       (parseEach env st (rs.map (fun r => r.body))).2, true) ∧
    (∀ chunk, segments chunk = [renderAll rs] →
      splitOutputStrings env st chunk =
        ((parseEach env st (rs.map (fun r => r.body))).1,
         (parseEach env st (rs.map (fun r => r.body))).2, true)) := by
  have hne : ∀ r ∈ rs, r.body.isEmpty = false := by
    intro r hr
    have h := hwf r hr
    simp only [CounterRecord.wellFormed, Bool.and_eq_true, Bool.not_eq_true'] at h
    exact h.1.2
  have hfilter : (rs.map (fun r => r.body)).filter (fun part => !part.isEmpty) =
      rs.map (fun r => r.body) := by
    rw [List.filter_eq_self]
    intro b hb
    obtain ⟨r, hr, rfl⟩ := List.mem_map.mp hb
    simp [hne r hr]
  have hsplit : rxSplit (renderAll rs) counterRegExp = rs.map (fun r => r.body) := by
    unfold rxSplit
    rw [rxSplitAux_renderAll rs hwf]
    simpa [List.filter_cons] using hfilter
  have hseg : segmentCandidates env (renderAll rs) = (rs.map (fun r => r.body), true) := by
    unfold segmentCandidates
    simp only [hsplit, List.length_map]
    have h1 : ¬ rs.length = 1 := by omega
    have h2 : rs.length > 1 := by omega
    simp only [h1, if_false, h2, if_true]
    rw [hfilter]
  have heach : splitEach env st [renderAll rs] =
      ((parseEach env st (rs.map (fun r => r.body))).1,
       (parseEach env st (rs.map (fun r => r.body))).2, true) := by
    simp [splitEach, hseg]
  refine ⟨hseg, by rw [hseg]; simp, ?_, heach, ?_⟩
  · rw [hseg]
    intro c hc
    obtain ⟨r, hr, rfl⟩ := List.mem_map.mp hc
    have h := hwf r hr
    simp only [CounterRecord.wellFormed, Bool.and_eq_true, Bool.not_eq_true'] at h
    exact h.2
  · intro chunk hchunk
    unfold splitOutputStrings
    rw [hchunk, heach]

/-- The witness of C7: two records, two candidates. -/
theorem C7_counter_round_trip_witness :
    segmentCandidates plainEnv (qs "(  1/10) installing foo (  2/10) installing bar") =
      ([qs "installing foo ", qs "installing bar"], true) ∧
    (splitOutputStrings plainEnv (freshSession ectn_INSTALL)
        (qs "(  1/10) installing foo (  2/10) installing bar")).2.1 =
      [Event.textToPrintExt (qs "installing foo<br>"),
       Event.textToPrintExt (qs "installing bar<br>")] :=
  ⟨(C7_counter_round_trip plainEnv (freshSession ectn_INSTALL)
      [{ spaces := 2, num := qs "1", den := qs "10", body := qs "installing foo " },
       { spaces := 2, num := qs "2", den := qs "10", body := qs "installing bar" }]
      (by decide) (by decide)).1,
   by decide⟩

/-! ## The bypass (C11) -/

/-- C11: `prepareTextToPrint(S, ectn_DONT_TREAT_STRING, _)` emits exactly one
text event carrying `S` unchanged and leaves the session, `m_textPrinted`
included, as it was, for every `S` (suppressed or already printed or not) and
every session state; a run of n such calls emits `S` n times. -/
theorem C11_bypass (env : Env) (st : XBPSExec) (S : QString) (tl : TreatURLLinks)
    (tls : List TreatURLLinks) :
    prepareTextToPrint env st S ectn_DONT_TREAT_STRING tl = (st, [Event.textToPrintExt S]) ∧
    bypassCalls env S st tls = (st, List.replicate tls.length (Event.textToPrintExt S)) := by
  have h1 : ∀ (s : XBPSExec) (t : TreatURLLinks),
      prepareTextToPrint env s S ectn_DONT_TREAT_STRING t = (s, [Event.textToPrintExt S]) := by
    intro s t
    unfold prepareTextToPrint
    simp
  refine ⟨h1 st tl, ?_⟩
  induction tls with
  | nil => rfl
  | cons t ts ih => simp [bypassCalls, h1, ih, List.replicate_succ]

/-! ## The completion event (C17) -/

/-- C17: under a non-terminal operation kind, a candidate whose cleaned form
holds "100%" makes `parseXBPSProcessOutput` emit `percentage(100)`, and that
signal is the first one emitted for the candidate. -/
theorem C17_completion_event (env : Env) (st : XBPSExec) (output : QString)
    (hop : ¬(st.m_commandExecuting = ectn_RUN_IN_TERMINAL ∨
             st.m_commandExecuting = ectn_RUN_SYSTEM_UPGRADE_IN_TERMINAL))
    (h100 : contains (noiseFilter output) (qs "100%") = true) :
    ∃ rest, (parseXBPSProcessOutput env st output).2 = Event.percentage 100 :: rest := by
  have hidx : (indexOf (noiseFilter output) (qs "100%") != -1) = true := by
    simpa [contains] using h100
  unfold parseXBPSProcessOutput
  dsimp only
  generalize noiseFilter output = msg at hidx ⊢
  rw [if_neg hop]
  simp only [hidx, if_true]
  split
  · exact ⟨_, rfl⟩
  · split
    · split
      · exact ⟨_, rfl⟩
      · exact ⟨_, rfl⟩
    · exact ⟨_, rfl⟩

/-- The witness of C17: "foo 100%" emits `percentage(100)` first. -/
theorem C17_completion_event_witness :
    ∃ rest, (parseXBPSProcessOutput plainEnv (freshSession ectn_INSTALL) (qs "foo 100%")).2 =
      Event.percentage 100 :: rest :=
  C17_completion_event plainEnv (freshSession ectn_INSTALL) (qs "foo 100%") (by decide)
    (by decide)

/-! ## The Updating guard (C16) -/

/-- C16 (as the code has it): under a non-terminal operation kind, a candidate
whose cleaned form is no download-target line, holds "Updating", holds neither
"B/s" nor "configuration file" and holds no single quote is dropped at the
guard of line 241: no text is emitted and the session is unchanged; the only
signal is the `percentage(100)` of line 224, emitted beforehand when the
cleaned form holds "100%". -/
theorem C16_updating_guard (env : Env) (st : XBPSExec) (output : QString)
    (hop : ¬(st.m_commandExecuting = ectn_RUN_IN_TERMINAL ∨
             st.m_commandExecuting = ectn_RUN_SYSTEM_UPGRADE_IN_TERMINAL))
    (hd : isDownloadLine (noiseFilter output) = false)
    (hupd : contains (noiseFilter output) (qs "Updating") = true)
    (hbs : contains (noiseFilter output) (qs "B/s") = false)
    (hcf : contains (noiseFilter output) (qs "configuration file") = false)
    (hq : contains (noiseFilter output) [QUOTE] = false) :
    parseXBPSProcessOutput env st output =
      (st, if contains (noiseFilter output) (qs "100%") then [Event.percentage 100] else []) := by
  have hu : isUpdatingLine (noiseFilter output) = true := by
    unfold isUpdatingLine L
    simp [rxContains_lit, hupd, hbs, hcf]
  have hidx : indexOf (noiseFilter output) [QUOTE] = -1 := by simpa [contains] using hq
  unfold parseXBPSProcessOutput
  dsimp only
  rw [if_neg hop]
  simp [hd, hu, hidx, contains]

/-- The witness of C16: "Updating repository" is dropped without any signal. -/
theorem C16_updating_guard_witness :
    parseXBPSProcessOutput plainEnv (freshSession ectn_SYNC_DATABASE) (qs "Updating repository") =
      (freshSession ectn_SYNC_DATABASE, []) :=
  C16_updating_guard plainEnv (freshSession ectn_SYNC_DATABASE) (qs "Updating repository")
    (by decide) (by decide) (by decide) (by decide) (by decide) (by decide)

/-- C16 refuted as stated: "Updating 100%" (no quote, no "B/s", no
"configuration file", no download target) emits `percentage(100)`. -/
theorem C16_counterexample :
    isDownloadLine (noiseFilter (qs "Updating 100%")) = false ∧
    contains (noiseFilter (qs "Updating 100%")) (qs "Updating") = true ∧
    contains (noiseFilter (qs "Updating 100%")) (qs "B/s") = false ∧
    contains (noiseFilter (qs "Updating 100%")) (qs "configuration file") = false ∧
    contains (noiseFilter (qs "Updating 100%")) [QUOTE] = false ∧
    (parseXBPSProcessOutput plainEnv (freshSession ectn_SYNC_DATABASE) (qs "Updating 100%")).2 =
      [Event.percentage 100] := by
  decide

/-! ## Download lines go on to the percentage step (C13) -/

theorem percentagesOf_append (a b : List Event) :
    percentagesOf (a ++ b) = percentagesOf a ++ percentagesOf b := by
  induction a with
  | nil => rfl
  | cons e es ih => cases e <;> simp [percentagesOf, ih]

theorem percentagesOf_prepareTextToPrint (env : Env) (st : XBPSExec) (s : QString)
    (tl : TreatURLLinks) :
    percentagesOf (prepareTextToPrint env st s ectn_TREAT_STRING tl).2 = [] := by
  rcases prepareTextToPrint_cases env st s tl with h | ⟨_, _, h⟩ <;> rw [h] <;> rfl

theorem textsOf_length_le (es : List Event) : (textsOf es).length ≤ es.length := by
  induction es with
  | nil => simp [textsOf]
  | cons e es ih => cases e <;> simp [textsOf] <;> omega

theorem percentageStep_length_le (msg perc : QString) : (percentageStep msg perc).length ≤ 1 := by
  unfold percentageStep
  simp only
  split
  · simp
  · unfold emitPerc
    split <;> simp

theorem percentagesOf_length_le (es : List Event) : (percentagesOf es).length ≤ es.length := by
  induction es with
  | nil => simp [percentagesOf]
  | cons e es ih => cases e <;> simp [percentagesOf] <;> omega

/-- Lines 228-236 followed by lines 254-272 for a download line. -/
theorem parse_download_events (env : Env) (st : XBPSExec) (output : QString)
    (hop : ¬(st.m_commandExecuting = ectn_RUN_IN_TERMINAL ∨
             st.m_commandExecuting = ectn_RUN_SYSTEM_UPGRADE_IN_TERMINAL))
    (hd : isDownloadLine (noiseFilter output) = true)
    (h100 : contains (noiseFilter output) (qs "100%") = false) :
    (parseXBPSProcessOutput env st output).2 =
      (if !st.m_textPrinted.contains (downloadTarget (noiseFilter output)) then
          prepareTextToPrint env st
            (qs "<b><font color=\"#FF8040\">" ++ downloadTarget (noiseFilter output) ++
              qs "</font></b>") ectn_TREAT_STRING ectn_TREAT_URL_LINK
        else (st, [])).2 ++ percentageStep (noiseFilter output) [] := by
  have hp : indexOf (noiseFilter output) (qs "%") ≠ -1 := by
    simp only [isDownloadLine, Bool.and_eq_true] at hd
    simpa [contains] using hd.2
  have hidx : (indexOf (noiseFilter output) (qs "100%") != -1) = false := by
    simpa [contains] using h100
  unfold parseXBPSProcessOutput
  dsimp only
  generalize noiseFilter output = msg at hd hp hidx ⊢
  rw [if_neg hop, if_pos hd]
  simp only [hidx, Bool.false_eq_true, if_false, List.nil_append]
  unfold percentageOrText
  simp [hp]

/-- C13 (as the code has it): under a non-terminal operation kind, a candidate
whose cleaned form holds ".xbps:" or ".xbps.sig:" and "%" but not "100%" first
gets the download-target text (at most one text, none when the target was seen
or is suppressed) and then goes through the percentage step of lines 254-272:
the signals are that text followed by what the percentage step emits, at most
one percentage; the candidate never reaches the generic text branch. -/
theorem C13_download_then_percentage (env : Env) (st : XBPSExec) (output : QString)
    (hop : ¬(st.m_commandExecuting = ectn_RUN_IN_TERMINAL ∨
             st.m_commandExecuting = ectn_RUN_SYSTEM_UPGRADE_IN_TERMINAL))
    (hx : contains (noiseFilter output) (qs ".xbps:") = true ∨
          contains (noiseFilter output) (qs ".xbps.sig:") = true)
    (hp : contains (noiseFilter output) (qs "%") = true)
    (h100 : contains (noiseFilter output) (qs "100%") = false) :
    (parseXBPSProcessOutput env st output).2 =
      (if !st.m_textPrinted.contains (downloadTarget (noiseFilter output)) then
          prepareTextToPrint env st
            (qs "<b><font color=\"#FF8040\">" ++ downloadTarget (noiseFilter output) ++
              qs "</font></b>") ectn_TREAT_STRING ectn_TREAT_URL_LINK
        else (st, [])).2 ++ percentageStep (noiseFilter output) [] ∧
    (textsOf (parseXBPSProcessOutput env st output).2).length ≤ 1 ∧
    percentagesOf (parseXBPSProcessOutput env st output).2 =
      percentagesOf (percentageStep (noiseFilter output) []) ∧
    (percentagesOf (parseXBPSProcessOutput env st output).2).length ≤ 1 := by
  have hd : isDownloadLine (noiseFilter output) = true := by
    unfold isDownloadLine
    rcases hx with h | h <;> simp [h, hp]
  have hev := parse_download_events env st output hop hd h100
  have htexts : (textsOf (if !st.m_textPrinted.contains (downloadTarget (noiseFilter output)) then
          prepareTextToPrint env st
            (qs "<b><font color=\"#FF8040\">" ++ downloadTarget (noiseFilter output) ++
              qs "</font></b>") ectn_TREAT_STRING ectn_TREAT_URL_LINK
        else (st, [])).2).length ≤ 1 := by
    split
    · exact le_trans (textsOf_length_le _) (prepareTextToPrint_length_le env st _ _)
    · simp [textsOf]
  have hperc : percentagesOf (if !st.m_textPrinted.contains
          (downloadTarget (noiseFilter output)) then
          prepareTextToPrint env st
            (qs "<b><font color=\"#FF8040\">" ++ downloadTarget (noiseFilter output) ++
              qs "</font></b>") ectn_TREAT_STRING ectn_TREAT_URL_LINK
        else (st, [])).2 = [] := by
    split
    · exact percentagesOf_prepareTextToPrint env st _ _
    · rfl
  have hpeq : percentagesOf (parseXBPSProcessOutput env st output).2 =
      percentagesOf (percentageStep (noiseFilter output) []) := by
    rw [hev, percentagesOf_append, hperc, List.nil_append]
  refine ⟨hev, ?_, hpeq, ?_⟩
  · rw [hev, textsOf_append, textsOf_percentageStep, List.append_nil]
    exact htexts
  · rw [hpeq]
    exact le_trans (percentagesOf_length_le _) (percentageStep_length_le _ _)

/-- The witness of C13: "libfoo.xbps: 45% installed" gives the target text and
then the percentage 45. -/
theorem C13_download_then_percentage_witness :
    percentagesOf (parseXBPSProcessOutput plainEnv (freshSession ectn_INSTALL)
        (qs "libfoo.xbps: 45% installed")).2 =
      percentagesOf (percentageStep (noiseFilter (qs "libfoo.xbps: 45% installed")) []) :=
  (C13_download_then_percentage plainEnv (freshSession ectn_INSTALL)
    (qs "libfoo.xbps: 45% installed") (by decide) (Or.inl (by decide)) (by decide)
    (by decide)).2.2.1

/-- C13 refuted as stated: "libfoo.xbps: 45% installed" holds ".xbps:" and "%"
and no "100%", and the parser emits the download-target text and then
`percentage(45)`. -/
theorem C13_counterexample :
    contains (noiseFilter (qs "libfoo.xbps: 45% installed")) (qs ".xbps:") = true ∧
    contains (noiseFilter (qs "libfoo.xbps: 45% installed")) (qs "%") = true ∧
    contains (noiseFilter (qs "libfoo.xbps: 45% installed")) (qs "100%") = false ∧
    (parseXBPSProcessOutput plainEnv (freshSession ectn_INSTALL)
        (qs "libfoo.xbps: 45% installed")).2 =
      [Event.textToPrintExt (qs "<b><font color=\"#FF8040\">libfoo.xbps</font></b><br>"),
       Event.percentage 45] := by
  decide

/-! ## Percentage extraction (C14, C15) -/

theorem indexOfFrom_single_append (c : Char) (a b : QString) (i : Nat) (h : c ∉ a) :
    indexOfFrom [c] (a ++ c :: b) i = ((i + a.length : Nat) : Int) := by
  induction a generalizing i with
  | nil => simp [indexOfFrom, List.isPrefixOf]
  | cons d ds ih =>
    simp only [List.mem_cons, not_or] at h
    have hp : List.isPrefixOf [c] (d :: (ds ++ c :: b)) = false := by
      simp [List.isPrefixOf, h.1]
    rw [List.cons_append, indexOfFrom, hp]
    simp only [Bool.false_eq_true, if_false]
    rw [ih (i + 1) h.2]
    have hlen : i + 1 + ds.length = i + (d :: ds).length := by
      simp only [List.length_cons]
      omega
    rw [hlen]

theorem getD_append_length (a b : QString) (c d : Char) : (a ++ c :: b).getD a.length d = c := by
  induction a with
  | nil => rfl
  | cons x xs ih => simpa using ih

theorem drop_append_length (a b : QString) : (a ++ b).drop a.length = b := by
  induction a with
  | nil => rfl
  | cons x xs ih => simp

theorem trimmed_eq_self (c : Char) (s : QString) (hc : isSpace c = false)
    (hl : isSpace ((c :: s).getLast (by simp)) = false) : trimmed (c :: s) = c :: s := by
  unfold trimmed
  have h1 : (c :: s).dropWhile isSpace = c :: s := by simp [List.dropWhile, hc]
  rw [h1]
  have h2 : (c :: s).reverse.dropWhile isSpace = (c :: s).reverse := by
    cases hr : (c :: s).reverse with
    | nil => rfl
    | cons x xs =>
      have hx : x = (c :: s).getLast (by simp) := by
        have := List.head?_reverse (c :: s)
        rw [hr] at this
        simp only [List.head?_cons] at this
        rw [List.getLast?_eq_getLast _ (by simp)] at this
        exact Option.some.inj this
      rw [← hx] at hl
      simp [List.dropWhile, hl]
  rw [h2, List.reverse_reverse]

theorem digit_ne_percent (d : Char) (h : isAsciiDigit d = true) : d ≠ '%' := by
  intro he
  subst he
  exact absurd h (by decide)

theorem toInt_eq_parse (s : QString) :
    toInt s =
      match toIntParse s with
      | some n => if -2147483648 ≤ n ∧ n ≤ 2147483647 then n else 0
      | none => 0 := rfl

theorem toIntParse_digits (d : Char) (ds : QString) (hd : isAsciiDigit d = true)
    (hl : isSpace ((d :: ds).getLast (by simp)) = false) :
    toIntParse (d :: ds) = (decimal (d :: ds) 0).map (fun n => (n : Int)) := by
  unfold toIntParse
  rw [trimmed_eq_self d ds (digit_not_space d hd) hl]
  split
  · rename_i ds1 heq
    simp only [List.cons.injEq] at heq
    rw [heq.1] at hd
    exact absurd hd (by decide)
  · rename_i ds1 heq
    simp only [List.cons.injEq] at heq
    rw [heq.1] at hd
    exact absurd hd (by decide)
  · rfl

theorem toInt_of_decimal (d : Char) (ds : QString) (n : Nat) (hd : isAsciiDigit d = true)
    (hl : isSpace ((d :: ds).getLast (by simp)) = false) (hn : decimal (d :: ds) 0 = some n)
    (hle : n ≤ 99) : toInt (d :: ds) = (n : Int) := by
  rw [toInt_eq_parse, toIntParse_digits d ds hd hl, hn]
  show (if -2147483648 ≤ (n : Int) ∧ (n : Int) ≤ 2147483647 then (n : Int) else 0) = (n : Int)
  rw [if_pos (by omega)]

theorem toInt_digits (D : QString) (hD : D.all isAsciiDigit = true) (h1 : 1 ≤ D.length)
    (h2 : D.length ≤ 2) : ∃ n, decimal D 0 = some n ∧ toInt D = (n : Int) := by
  match D, h1, h2 with
  | [d], _, _ =>
    simp only [List.all_cons, List.all_nil, Bool.and_true] at hD
    have hn : decimal [d] 0 = some (d.toNat - 48) := by simp [decimal, hD]
    have := digit_le_nine d hD
    exact ⟨d.toNat - 48, hn,
      toInt_of_decimal d [] _ hD (by simpa using digit_not_space d hD) hn (by omega)⟩
  | [d, e], _, _ =>
    simp only [List.all_cons, List.all_nil, Bool.and_true, Bool.and_eq_true] at hD
    have hn : decimal [d, e] 0 = some ((d.toNat - 48) * 10 + (e.toNat - 48)) := by
      simp [decimal, hD.1, hD.2]
    have := digit_le_nine d hD.1
    have := digit_le_nine e hD.2
    exact ⟨_, hn, toInt_of_decimal d [e] _ hD.1 (by simpa using digit_not_space e hD.2) hn
      (by omega)⟩
  | [], h1, _ => simp at h1
  | _ :: _ :: _ :: _, _, h2 => simp at h2

/-- The percentage signal for the text `D%`, `D` one or two digits. -/
theorem emitPerc_digits (D : QString) (hD : D.all isAsciiDigit = true) (h1 : 1 ≤ D.length)
    (h2 : D.length ≤ 2) :
    ∃ n, decimal D 0 = some n ∧ emitPerc (D ++ ['%']) = [Event.percentage (n : Int)] := by
  obtain ⟨n, hn, ht⟩ := toInt_digits D hD h1 h2
  refine ⟨n, hn, ?_⟩
  have hnot : '%' ∉ D := fun hm => by
    have := (List.all_eq_true.mp hD) '%' hm
    exact absurd this (by decide)
  have hidx : indexOf (D ++ ['%']) (qs "%") = (D.length : Int) := by
    have := indexOfFrom_single_append '%' D [] 0 hnot
    simpa [indexOf, qs] using this
  have hne : (D ++ ['%']).isEmpty = false := by cases D <;> rfl
  have hleft : left (D ++ ['%']) (((D ++ ['%']).length : Int) - 1) = D := by
    unfold left
    have : ¬((((D ++ ['%']).length : Int) - 1 < 0) ∨
        ((D ++ ['%']).length : Int) ≤ ((D ++ ['%']).length : Int) - 1) := by
      simp only [List.length_append, List.length_singleton]
      omega
    rw [if_neg this]
    simp
  unfold emitPerc
  rw [hne, hidx, hleft, ht]
  have hpos : (0 : Int) < (D.length : Int) := by omega
  simp [hpos]

theorem pickPerc_digits (P D R perc : QString) (hD : D.all isAsciiDigit = true)
    (h1 : 1 ≤ D.length) (h2 : D.length ≤ 2) :
    pickPerc (P ++ ' ' :: (D ++ '%' :: R)) perc ((P.length + 1 + D.length : Nat) : Int) =
      D ++ ['%'] := by
  match D, h1, h2 with
  | [d], _, _ =>
    simp only [List.all_cons, List.all_nil, Bool.and_true] at hD
    have e1 : (((P.length + 1 + [d].length : Nat) : Int) - 2).toNat = P.length := by
      simp only [List.length_singleton]; omega
    have e2 : (((P.length + 1 + [d].length : Nat) : Int) - 1).toNat = (P ++ [' ']).length := by
      simp only [List.length_singleton, List.length_append]; omega
    have hsp : isSpace (charAt (P ++ ' ' :: ([d] ++ '%' :: R))
        (((P.length + 1 + [d].length : Nat) : Int) - 2)) = true := by
      unfold charAt
      rw [e1, getD_append_length]
      decide
    have hmid : mid (P ++ ' ' :: ([d] ++ '%' :: R))
        (((P.length + 1 + [d].length : Nat) : Int) - 1) 2 = [d, '%'] := by
      unfold mid
      rw [e2]
      have : P ++ ' ' :: ([d] ++ '%' :: R) = (P ++ [' ']) ++ (d :: '%' :: R) := by simp
      rw [this, drop_append_length]
      rfl
    unfold pickPerc
    rw [if_pos hsp, hmid]
    exact trimmed_eq_self d ['%'] (digit_not_space d hD) (by show isSpace '%' = false; decide)
  | [d, e], _, _ =>
    simp only [List.all_cons, List.all_nil, Bool.and_true, Bool.and_eq_true] at hD
    have e1 : (((P.length + 1 + [d, e].length : Nat) : Int) - 2).toNat = (P ++ [' ']).length := by
      simp only [List.length_cons, List.length_nil, List.length_append]; omega
    have e2 : (((P.length + 1 + [d, e].length : Nat) : Int) - 3).toNat = P.length := by
      simp only [List.length_cons, List.length_nil]; omega
    have hmsg : P ++ ' ' :: ([d, e] ++ '%' :: R) = (P ++ [' ']) ++ (d :: e :: '%' :: R) := by simp
    have hsp2 : isSpace (charAt (P ++ ' ' :: ([d, e] ++ '%' :: R))
        (((P.length + 1 + [d, e].length : Nat) : Int) - 2)) = false := by
      unfold charAt
      rw [e1, hmsg, getD_append_length]
      exact digit_not_space d hD.1
    have hsp3 : isSpace (charAt (P ++ ' ' :: ([d, e] ++ '%' :: R))
        (((P.length + 1 + [d, e].length : Nat) : Int) - 3)) = true := by
      unfold charAt
      rw [e2, getD_append_length]
      decide
    have hmid : mid (P ++ ' ' :: ([d, e] ++ '%' :: R))
        (((P.length + 1 + [d, e].length : Nat) : Int) - 2) 3 = [d, e, '%'] := by
      unfold mid
      rw [e1, hmsg, drop_append_length]
      rfl
    unfold pickPerc
    rw [hsp2, hsp3, hmid]
    simp only [Bool.false_eq_true, if_false, if_true]
    exact trimmed_eq_self d [e, '%'] (digit_not_space d hD.1)
      (by show isSpace '%' = false; decide)
  | [], h1, _ => simp at h1
  | _ :: _ :: _ :: _, _, h2 => simp at h2

/-- Lines 254-272 for a candidate that holds "%" but neither "100%" nor the
download or Updating marks. -/
theorem parse_percentage_plain (env : Env) (st : XBPSExec) (output : QString)
    (hop : ¬(st.m_commandExecuting = ectn_RUN_IN_TERMINAL ∨
             st.m_commandExecuting = ectn_RUN_SYSTEM_UPGRADE_IN_TERMINAL))
    (hd : isDownloadLine (noiseFilter output) = false)
    (hu : isUpdatingLine (noiseFilter output) = false)
    (hp : contains (noiseFilter output) (qs "%") = true)
    (h100 : contains (noiseFilter output) (qs "100%") = false) :
    parseXBPSProcessOutput env st output = (st, percentageStep (noiseFilter output) []) := by
  have hpi : indexOf (noiseFilter output) (qs "%") ≠ -1 := by simpa [contains] using hp
  have hidx : (indexOf (noiseFilter output) (qs "100%") != -1) = false := by
    simpa [contains] using h100
  unfold parseXBPSProcessOutput
  dsimp only
  generalize noiseFilter output = msg at hd hu hpi hidx ⊢
  rw [if_neg hop]
  simp only [hd, hu, hidx, Bool.false_eq_true, if_false, List.nil_append]
  unfold percentageOrText
  simp [hpi]

/-- C14: under a non-terminal operation kind, a candidate whose cleaned form is
`P ++ " " ++ D ++ "%" ++ R` with `D` one or two decimal digits, no "%" in `P`,
that "%" at index 3 or more, and none of "100%", ".xbps:", ".xbps.sig:",
"Updating" in the whole text, makes `parseXBPSProcessOutput` emit exactly one
signal, `percentage(n)` with `n` the decimal value of `D`, and no text. -/
theorem C14_percentage_extraction (env : Env) (st : XBPSExec) (output P D R : QString)
    (hop : ¬(st.m_commandExecuting = ectn_RUN_IN_TERMINAL ∨
             st.m_commandExecuting = ectn_RUN_SYSTEM_UPGRADE_IN_TERMINAL))
    (hmsg : noiseFilter output = P ++ qs " " ++ D ++ qs "%" ++ R)
    (hD : D.all isAsciiDigit = true) (h1 : 1 ≤ D.length) (h2 : D.length ≤ 2)
    (hP : contains P (qs "%") = false)
    (hidx : 3 ≤ P.length + 1 + D.length)
    (h100 : contains (noiseFilter output) (qs "100%") = false)
    (hx1 : contains (noiseFilter output) (qs ".xbps:") = false)
    (hx2 : contains (noiseFilter output) (qs ".xbps.sig:") = false)
    (hupd : contains (noiseFilter output) (qs "Updating") = false) :
    ∃ n : Nat, decimal D 0 = some n ∧
      parseXBPSProcessOutput env st output = (st, [Event.percentage (n : Int)]) := by
  have hform : noiseFilter output = P ++ ' ' :: (D ++ '%' :: R) := by
    rw [hmsg]; simp [qs]
  have hPnot : '%' ∉ P := by
    rw [contains_eq_false_iff] at hP
    intro hm
    obtain ⟨a, b, hab⟩ := List.append_of_mem hm
    exact hP ⟨a, b, by rw [hab]; simp [qs]⟩
  have hDnot : '%' ∉ D := fun hm => by
    have := (List.all_eq_true.mp hD) '%' hm
    exact absurd this (by decide)
  have hpidx : indexOf (noiseFilter output) (qs "%") = ((P.length + 1 + D.length : Nat) : Int) := by
    have hsplit : noiseFilter output = (P ++ ' ' :: D) ++ '%' :: R := by rw [hform]; simp
    have hnot : '%' ∉ P ++ ' ' :: D := by
      simp only [List.mem_append, List.mem_cons, not_or]
      exact ⟨hPnot, by decide, hDnot⟩
    have hq : qs "%" = ['%'] := rfl
    have hlen : 0 + (P ++ ' ' :: D).length = P.length + 1 + D.length := by
      simp only [List.length_append, List.length_cons]
      omega
    rw [hsplit, indexOf, hq, indexOfFrom_single_append '%' (P ++ ' ' :: D) R 0 hnot, hlen]
  have hp : contains (noiseFilter output) (qs "%") = true := by
    simp [contains, hpidx]
    omega
  have hd : isDownloadLine (noiseFilter output) = false := by
    simp [isDownloadLine, hx1, hx2]
  have hu : isUpdatingLine (noiseFilter output) = false := by
    simp [isUpdatingLine, hupd]
  obtain ⟨n, hn, hemit⟩ := emitPerc_digits D hD h1 h2
  refine ⟨n, hn, ?_⟩
  rw [parse_percentage_plain env st output hop hd hu hp h100]
  unfold percentageStep
  simp only
  rw [hpidx]
  have hguard : ((((P.length + 1 + D.length : Nat) : Int) == -1) ||
      decide ((((P.length + 1 + D.length : Nat) : Int) - 3 < 0)) ||
      decide ((((P.length + 1 + D.length : Nat) : Int) - 2 < 0))) = false := by
    simp only [Bool.or_eq_false_iff, beq_eq_false_iff_ne, decide_eq_false_iff_not]
    omega
  rw [hguard]
  simp only [Bool.false_eq_true, if_false]
  rw [hform, pickPerc_digits P D R [] hD h1 h2, hemit]

/-- The witness of C14: "Downloading foo 45% done". -/
theorem C14_percentage_extraction_witness :
    ∃ n : Nat, decimal (qs "45") 0 = some n ∧
      parseXBPSProcessOutput plainEnv (freshSession ectn_INSTALL) (qs "Downloading foo 45% done") =
        (freshSession ectn_INSTALL, [Event.percentage (n : Int)]) :=
  C14_percentage_extraction plainEnv (freshSession ectn_INSTALL) (qs "Downloading foo 45% done")
    (qs "Downloading foo") (qs "45") (qs " done") (by decide) (by decide) (by decide) (by decide)
    (by decide) (by decide) (by decide) (by decide) (by decide) (by decide) (by decide)

theorem toInt_of_parse_none (s : QString) (h : toIntParse s = none) : toInt s = 0 := by
  rw [toInt_eq_parse, h]

/-- C15 (as the code has it): for a candidate that reaches the percentage branch
(non-terminal operation kind, cleaned form with "%" but without "100%", not
taken by the Updating branch) and passes the guard of line 257, if the text
`perc` picked in front of the first "%" is non-empty, has its "%" after index 0
and the characters before its last one do not form a decimal integer, the
percentage step emits `percentage(0)`, the failure value of `toInt`; it is the
only percentage of the candidate, and the only signal at all unless the
candidate is a download-target line. -/
theorem C15_parse_failure_emits_zero (env : Env) (st : XBPSExec) (output : QString)
    (hop : ¬(st.m_commandExecuting = ectn_RUN_IN_TERMINAL ∨
             st.m_commandExecuting = ectn_RUN_SYSTEM_UPGRADE_IN_TERMINAL))
    (hp : contains (noiseFilter output) (qs "%") = true)
    (h100 : contains (noiseFilter output) (qs "100%") = false)
    (hreach : isDownloadLine (noiseFilter output) = true ∨
              isUpdatingLine (noiseFilter output) = false)
    (hguard : 3 ≤ indexOf (noiseFilter output) (qs "%"))
    (hne : pickPerc (noiseFilter output) [] (indexOf (noiseFilter output) (qs "%")) ≠ [])
    (hpos : 0 < indexOf
      (pickPerc (noiseFilter output) [] (indexOf (noiseFilter output) (qs "%"))) (qs "%"))
    (hfail : toIntParse
      (left (pickPerc (noiseFilter output) [] (indexOf (noiseFilter output) (qs "%")))
        (((pickPerc (noiseFilter output) []
          (indexOf (noiseFilter output) (qs "%"))).length : Int) - 1)) = none) :
    percentageStep (noiseFilter output) [] = [Event.percentage 0] ∧
    percentagesOf (parseXBPSProcessOutput env st output).2 = [0] ∧
    (isDownloadLine (noiseFilter output) = false →
      parseXBPSProcessOutput env st output = (st, [Event.percentage 0])) := by
  have hstep : percentageStep (noiseFilter output) [] = [Event.percentage 0] := by
    unfold percentageStep
    simp only
    generalize noiseFilter output = msg at hguard hne hpos hfail ⊢
    generalize indexOf msg (qs "%") = p at hguard hne hpos hfail ⊢
    generalize pickPerc msg [] p = q at hne hpos hfail ⊢
    have hg : ((p == -1) || decide (p - 3 < 0) || decide (p - 2 < 0)) = false := by
      simp only [Bool.or_eq_false_iff, beq_eq_false_iff_ne, decide_eq_false_iff_not]
      omega
    rw [hg]
    simp only [Bool.false_eq_true, if_false]
    unfold emitPerc
    have hq : q.isEmpty = false := by cases q with
      | nil => exact absurd rfl hne
      | cons _ _ => rfl
    rw [hq, toInt_of_parse_none _ hfail]
    simp [hpos]
  refine ⟨hstep, ?_, ?_⟩
  · by_cases hd : isDownloadLine (noiseFilter output) = true
    · rw [parse_download_events env st output hop hd h100, percentagesOf_append, hstep]
      have : percentagesOf (if !st.m_textPrinted.contains
          (downloadTarget (noiseFilter output)) then
          prepareTextToPrint env st
            (qs "<b><font color=\"#FF8040\">" ++ downloadTarget (noiseFilter output) ++
              qs "</font></b>") ectn_TREAT_STRING ectn_TREAT_URL_LINK
          else (st, [])).2 = [] := by
        split
        · exact percentagesOf_prepareTextToPrint env st _ _
        · rfl
      rw [this]
      rfl
    · have hd2 : isDownloadLine (noiseFilter output) = false := by simpa using hd
      have hu : isUpdatingLine (noiseFilter output) = false := hreach.resolve_left hd
      rw [parse_percentage_plain env st output hop hd2 hu hp h100, hstep]
      rfl
  · intro hd
    have hu : isUpdatingLine (noiseFilter output) = false :=
      hreach.resolve_left (by simp [hd])
    rw [parse_percentage_plain env st output hop hd hu hp h100, hstep]

/-- The witness of C15: "x ab%". -/
theorem C15_parse_failure_emits_zero_witness :
    percentagesOf (parseXBPSProcessOutput plainEnv (freshSession ectn_INSTALL) (qs "x ab%")).2 =
      [0] :=
  (C15_parse_failure_emits_zero plainEnv (freshSession ectn_INSTALL) (qs "x ab%") (by decide)
    (by decide) (by decide) (Or.inr (by decide)) (by decide) (by decide) (by decide)
    (by decide)).2.1

/-- C15 refuted as stated: for "x ab%" the characters picked in front of the "%"
are "ab", no decimal integer, and the parser emits `percentage(0)`. -/
theorem C15_counterexample :
    pickPerc (noiseFilter (qs "x ab%")) [] (indexOf (noiseFilter (qs "x ab%")) (qs "%")) =
      qs "ab%" ∧
    toIntParse (qs "ab") = none ∧
    (parseXBPSProcessOutput plainEnv (freshSession ectn_INSTALL) (qs "x ab%")).2 =
      [Event.percentage 0] := by
  decide

/-! ## The stdout pass (C12) -/

theorem splitOutputStrings_blank (env : Env) (st : XBPSExec) (output : QString)
    (h : (trimmed output).isEmpty = true) : splitOutputStrings env st output = (st, [], true) := by
  have ht : trimmed output = [] := by
    cases hto : trimmed output with
    | nil => rfl
    | cons c cs => rw [hto] at h; exact absurd h (by simp)
  unfold splitOutputStrings segments
  rw [ht]
  rfl

/-- C12 (as the code has it): `onReadOutput` feeds the stdout chunk to the
splitter / classifier pipeline only when the helper command holds "kdesu" (and
the chunk is not the kdesu usage banner seen during a database sync): it then
emits the signals of `splitOutputStrings` on the chunk after the helper
boilerplate removal, followed by one `readOutput`. With a helper that holds
"gksu" the trimmed chunk goes to `prepareTextToPrint` unsplit, unless it is
empty or holds one of the two section headers; with any other helper only
`readOutput` is emitted. -/
theorem C12_stdout_parse_pass (env : Env) (suCommand : QString) (st : XBPSExec)
    (output : QString)
    (hk : contains suCommand (qs "kdesu") = true)
    (husage : ¬(st.m_commandExecuting = ectn_SYNC_DATABASE ∧
                contains output (qs "Usage: /usr/bin/kdesu [options] command") = true)) :
    onReadOutput env suCommand st output =
      ((splitOutputStrings env st (removeHelperBoilerplate output)).1,
       (splitOutputStrings env st (removeHelperBoilerplate output)).2.1.map Signal.ui ++
         [Signal.readOutput]) ∧
    (∀ su : QString, contains su (qs "kdesu") = false → contains su (qs "gksu") = true →
      onReadOutput env su st output =
        if !(trimmed output).isEmpty &&
            indexOf (trimmed output) (qs ":: Synchronizing package databases...") == -1 &&
            indexOf (trimmed output) (qs ":: Starting full system upgrade...") == -1 then
          ((prepareTextToPrint env st (trimmed output) ectn_TREAT_STRING ectn_TREAT_URL_LINK).1,
           (prepareTextToPrint env st (trimmed output) ectn_TREAT_STRING
              ectn_TREAT_URL_LINK).2.map Signal.ui ++ [Signal.readOutput])
        else (st, [Signal.readOutput])) ∧
    (∀ su : QString, contains su (qs "kdesu") = false → contains su (qs "gksu") = false →
      onReadOutput env su st output = (st, [Signal.readOutput])) := by
  refine ⟨?_, ?_, ?_⟩
  · unfold onReadOutput
    rw [if_pos hk, if_neg husage]
    dsimp only
    by_cases hb : (trimmed (removeHelperBoilerplate output)).isEmpty = true
    · rw [splitOutputStrings_blank env st _ hb]
      simp [hb]
    · have hb2 : (trimmed (removeHelperBoilerplate output)).isEmpty = false := by simpa using hb
      simp [hb2]
  · intro su h1 h2
    unfold onReadOutput
    simp only [h1, h2, Bool.false_eq_true, if_false, if_true]
  · intro su h1 h2
    unfold onReadOutput
    simp only [h1, h2, Bool.false_eq_true, if_false]

/-- The witness of C12: a two-record chunk under kdesu. -/
theorem C12_stdout_parse_pass_witness :
    (onReadOutput plainEnv (qs "/usr/lib/kde4/libexec/kdesu") (freshSession ectn_INSTALL)
        (qs "(  1/10) installing foo (  2/10) installing bar")).2 =
      [Signal.ui (Event.textToPrintExt (qs "installing foo<br>")),
       Signal.ui (Event.textToPrintExt (qs "installing bar<br>")),
       Signal.readOutput] :=
  (congrArg Prod.snd
    (C12_stdout_parse_pass plainEnv (qs "/usr/lib/kde4/libexec/kdesu")
      (freshSession ectn_INSTALL) (qs "(  1/10) installing foo (  2/10) installing bar")
      (by decide) (by decide)).1).trans (by decide)

/-- C12 refuted as stated: for the non-blank chunk
"(  1/10) installing foo (  2/10) installing bar" the splitter pipeline emits two
texts, but with the helper "gksu" `onReadOutput` emits none of them (the unsplit
chunk is suppressed by the formatter), and with the helper "sudo" the chunk is
not read into the pipeline at all. -/
theorem C12_counterexample :
    (splitOutputStrings plainEnv (freshSession ectn_INSTALL)
        (removeHelperBoilerplate (qs "(  1/10) installing foo (  2/10) installing bar"))).2.1 =
      [Event.textToPrintExt (qs "installing foo<br>"),
       Event.textToPrintExt (qs "installing bar<br>")] ∧
    (onReadOutput plainEnv (qs "gksu") (freshSession ectn_INSTALL)
        (qs "(  1/10) installing foo (  2/10) installing bar")).2 = [Signal.readOutput] ∧
    (onReadOutput plainEnv (qs "sudo") (freshSession ectn_INSTALL)
        (qs "(  1/10) installing foo (  2/10) installing bar")).2 = [Signal.readOutput] := by
  decide

/-! ## Pattern search in terms of substrings -/

theorem rxIndexOfFrom_ne_iff (rx : List Atom) (s : QString) (i : Nat) :
    rxIndexOfFrom rx s i ≠ -1 ↔ ∃ t, t <:+ s ∧ (matchHere rx t).isSome = true := by
  induction s generalizing i with
  | nil =>
    simp only [rxIndexOfFrom, List.suffix_nil]
    by_cases h : (matchHere rx []).isSome = true
    · simp only [h, if_true]
      constructor
      · intro _; exact ⟨[], rfl, h⟩
      · intro _; omega
    · simp only [h, Bool.false_eq_true, if_false, ne_eq, not_true_eq_false, false_iff]
      rintro ⟨t, rfl, ht⟩
      exact h ht
  | cons c cs ih =>
    simp only [rxIndexOfFrom]
    by_cases h : (matchHere rx (c :: cs)).isSome = true
    · simp only [h, if_true]
      constructor
      · intro _; exact ⟨c :: cs, List.suffix_refl _, h⟩
      · intro _; omega
    · simp only [h, Bool.false_eq_true, if_false]
      rw [ih (i + 1)]
      constructor
      · rintro ⟨t, ht, hs⟩
        exact ⟨t, ht.trans (List.suffix_cons c cs), hs⟩
      · rintro ⟨t, ht, hs⟩
        rcases List.suffix_cons_iff.mp ht with rfl | ht
        · exact absurd hs h
        · exact ⟨t, ht, hs⟩

theorem rxContains_iff (s : QString) (rx : List Atom) :
    rxContains s rx = true ↔ ∃ t, t <:+ s ∧ (matchHere rx t).isSome = true := by
  unfold rxContains rxIndexOf
  rw [← rxIndexOfFrom_ne_iff rx s 0]
  simp

theorem matchHere_cls_one (p : Char → Bool) (r : List Atom) (c : Char) (s : QString)
    (hc : p c = true) : matchHere (Atom.cls p 1 (some 1) :: r) (c :: s) = matchHere r s := by
  have hsplits : clsSplits p 1 (some 1) (c :: s) = [s] := by
    unfold clsSplits
    simp only [List.takeWhile_cons, hc, if_true, List.length_cons]
    have hmin : min 1 ((List.takeWhile p s).length + 1) = 1 := by omega
    rw [hmin]
    rfl
  simp only [matchHere, hsplits, firstSome]
  cases matchHere r s <;> rfl

/-- `\(\d` occurs exactly where "(" is followed by a digit. -/
theorem rxContains_paren_digit (T : QString) :
    rxContains T [L "(", oneDigit] = true ↔
      ∃ d, isAsciiDigit d = true ∧ ['(', d] <:+: T := by
  rw [rxContains_iff]
  constructor
  · rintro ⟨t, ⟨pre, hpre⟩, hs⟩
    obtain ⟨x, hx⟩ := Option.isSome_iff_exists.mp hs
    obtain ⟨s1, hs1, h1⟩ := matchHere_lit_some _ _ _ _ hx
    obtain ⟨a, b, hab, ha, hlo, hhi, -⟩ := matchHere_cls_some _ _ _ _ _ _ h1
    have hlen := hhi 1 rfl
    match a, hlo, hlen with
    | [d], _, _ =>
      simp only [List.all_cons, List.all_nil, Bool.and_true] at ha
      refine ⟨d, ha, pre, b, ?_⟩
      rw [← hpre, hs1, hab]
      simp [qs]
    | [], hlo, _ => simp at hlo
    | _ :: _ :: _, _, hlen => simp at hlen
  · rintro ⟨d, hd, pre, post, hT⟩
    refine ⟨'(' :: d :: post, ⟨pre, by rw [← hT]; simp⟩, ?_⟩
    have : matchHere [L "(", oneDigit] ('(' :: d :: post) = some post := by
      show matchHere (Atom.lit ['('] :: [Atom.cls isAsciiDigit 1 (some 1)]) (['('] ++ d :: post) = _
      rw [matchHere_lit_append, matchHere_cls_one isAsciiDigit [] d post hd]
      rfl
    rw [this]
    rfl

/-- `\d\)` occurs exactly where a digit is followed by ")". -/
theorem rxContains_digit_paren (T : QString) :
    rxContains T [oneDigit, L ")"] = true ↔
      ∃ d, isAsciiDigit d = true ∧ [d, ')'] <:+: T := by
  rw [rxContains_iff]
  constructor
  · rintro ⟨t, ⟨pre, hpre⟩, hs⟩
    obtain ⟨x, hx⟩ := Option.isSome_iff_exists.mp hs
    obtain ⟨a, b, hab, ha, hlo, hhi, h1⟩ := matchHere_cls_some _ _ _ _ _ _ hx
    obtain ⟨s1, hs1, -⟩ := matchHere_lit_some _ _ _ _ h1
    have hlen := hhi 1 rfl
    match a, hlo, hlen with
    | [d], _, _ =>
      simp only [List.all_cons, List.all_nil, Bool.and_true] at ha
      refine ⟨d, ha, pre, s1, ?_⟩
      rw [← hpre, hab, hs1]
      simp [qs]
    | [], hlo, _ => simp at hlo
    | _ :: _ :: _, _, hlen => simp at hlen
  · rintro ⟨d, hd, pre, post, hT⟩
    refine ⟨d :: ')' :: post, ⟨pre, by rw [← hT]; simp⟩, ?_⟩
    have : matchHere [oneDigit, L ")"] (d :: ')' :: post) = some post := by
      show matchHere (Atom.cls isAsciiDigit 1 (some 1) :: [Atom.lit [')']]) (d :: ')' :: post) = _
      rw [matchHere_cls_one isAsciiDigit _ d _ hd]
      show matchHere (Atom.lit [')'] :: []) ([')'] ++ post) = _
      rw [matchHere_lit_append]
      rfl
    rw [this]
    rfl

theorem indexOfFrom_ge (pat s : QString) (i : Nat) :
    indexOfFrom pat s i = -1 ∨ (i : Int) ≤ indexOfFrom pat s i := by
  induction s generalizing i with
  | nil => unfold indexOfFrom; split <;> simp
  | cons c cs ih =>
    unfold indexOfFrom
    split
    · simp
    · rcases ih (i + 1) with h | h
      · left; exact h
      · right; omega

/-- `indexOf(pat) == 0` says that the text begins with `pat`. -/
theorem indexOf_eq_zero_iff (s pat : QString) : indexOf s pat = 0 ↔ pat <+: s := by
  unfold indexOf
  rw [← List.isPrefixOf_iff_prefix]
  cases s with
  | nil =>
    unfold indexOfFrom
    cases pat with
    | nil => simp
    | cons a l => simp
  | cons c cs =>
    unfold indexOfFrom
    by_cases hp : pat.isPrefixOf (c :: cs) = true
    · simp [hp]
    · simp only [hp, Bool.false_eq_true, if_false, iff_false]
      rcases indexOfFrom_ge pat cs (0 + 1) with h | h
      · rw [h]; omega
      · omega

/-! ## The suppression rules of the formatter (C18) -/

/-- The test of lines 361-372 as substring conditions: rules (a) and (c) as the
specification words them, rule (b) as a case-sensitive prefix test. -/
theorem unwantedString_iff (T : QString) :
    unwantedString T = true ↔
      (((∃ d, isAsciiDigit d = true ∧ (['(', d] <:+: T ∨ [d, ')'] <:+: T)) ∧
        ¬ (qs "target").map foldCase <:+: T.map foldCase ∧
        ¬ (qs "package").map foldCase <:+: T.map foldCase) ∨
      (qs "Enter a selection" <+: T ∨ qs "Proceed with" <+: T) ∨
      (qs "%" <:+: T ∨ qs "---" <:+: T ∨ qs "removed obsolete entry" <:+: T ∨
        qs "avg rate" <:+: T)) := by
  have hCI : ∀ p, containsCI T p = contains (T.map foldCase) (p.map foldCase) := fun _ => rfl
  have hne : ∀ p, (indexOf T p != -1) = contains T p := fun _ => rfl
  have hz : ∀ p, (indexOf T p == 0) = true ↔ p <+: T := by
    intro p
    rw [beq_iff_eq]
    exact indexOf_eq_zero_iff _ _
  unfold unwantedString
  simp only [hCI, hne, hz, Bool.or_eq_true, Bool.and_eq_true, Bool.not_eq_true',
    contains_eq_false_iff, contains_iff, rxContains_paren_digit, rxContains_digit_paren]
  have hA : ∀ (X Y : Char → Prop) (t p : Prop),
      ((((∃ d, isAsciiDigit d = true ∧ X d) ∧ ¬t) ∧ ¬p) ∨
        (((∃ d, isAsciiDigit d = true ∧ Y d) ∧ ¬t) ∧ ¬p)) ↔
      ((∃ d, isAsciiDigit d = true ∧ (X d ∨ Y d)) ∧ ¬t ∧ ¬p) := by
    intro X Y t p
    constructor
    · rintro (⟨⟨⟨d, hd, h⟩, ht⟩, hp⟩ | ⟨⟨⟨d, hd, h⟩, ht⟩, hp⟩)
      · exact ⟨⟨d, hd, Or.inl h⟩, ht, hp⟩
      · exact ⟨⟨d, hd, Or.inr h⟩, ht, hp⟩
    · rintro ⟨⟨d, hd, h | h⟩, ht, hp⟩
      · exact Or.inl ⟨⟨⟨d, hd, h⟩, ht⟩, hp⟩
      · exact Or.inr ⟨⟨⟨d, hd, h⟩, ht⟩, hp⟩
  rw [hA]
  simp only [or_assoc]

/-- C18, the code at the texts "proceed with installation" and
"enter a selection now" in a fresh session: each begins, in another letter
case, with a prompt of rule (b), so the rules in the words of the specification
suppress it; but lines 367-368 pass `Qt::CaseInsensitive` where `indexOf`
expects `from`, the prefix test stays case-sensitive, and
`prepareTextToPrint` records the text and emits it. -/
theorem C18_prompt_rule_case_sensitive :
    (SuppressedBySpec (qs "proceed with installation") ∧
     unwantedString (qs "proceed with installation") = false ∧
     prepareTextToPrint plainEnv (freshSession ectn_INSTALL) (qs "proceed with installation")
        ectn_TREAT_STRING ectn_TREAT_URL_LINK =
      ({ m_commandExecuting := ectn_INSTALL,
         m_textPrinted := [qs "proceed with installation"], m_lastCommandList := [] },
       [Event.textToPrintExt (qs "proceed with installation<br>")])) ∧
    (SuppressedBySpec (qs "enter a selection now") ∧
     unwantedString (qs "enter a selection now") = false ∧
     prepareTextToPrint plainEnv (freshSession ectn_INSTALL) (qs "enter a selection now")
        ectn_TREAT_STRING ectn_TREAT_URL_LINK =
      ({ m_commandExecuting := ectn_INSTALL,
         m_textPrinted := [qs "enter a selection now"], m_lastCommandList := [] },
       [Event.textToPrintExt (qs "enter a selection now<br>")])) :=
  ⟨⟨Or.inr (Or.inl (Or.inr (by decide))), by decide, by decide⟩,
   ⟨Or.inr (Or.inl (Or.inl (by decide))), by decide, by decide⟩⟩

/-! ## Substrings of a wrapped text -/

theorem infix_append_split (pat a b : QString) (h : pat <:+: a ++ b) :
    pat <:+: a ∨ pat <:+: b ∨
      ∃ x y, x ≠ [] ∧ y ≠ [] ∧ pat = x ++ y ∧ x <:+ a ∧ y <+: b := by
  obtain ⟨s, t, hst⟩ := h
  rcases List.append_eq_append_iff.mp hst with ⟨a1, ha, ht⟩ | ⟨c1, hc, hb⟩
  · -- `s ++ pat` ends inside `a`
    exact Or.inl ⟨s, a1, ha.symm⟩
  · -- `s ++ pat = a ++ c1`, `b = c1 ++ t`
    rcases List.append_eq_append_iff.mp hc with ⟨a2, ha2, hp⟩ | ⟨c2, hs2, hc1⟩
    · -- `a = s ++ a2`, `pat = a2 ++ c1`
      by_cases hx : a2 = []
      · subst hx
        simp only [List.nil_append] at hp
        exact Or.inr (Or.inl ⟨[], t, by rw [hp, hb]; simp⟩)
      · by_cases hy : c1 = []
        · subst hy
          simp only [List.append_nil] at hp
          exact Or.inl ⟨s, [], by rw [hp, ha2]; simp⟩
        · exact Or.inr (Or.inr ⟨a2, c1, hx, hy, hp, ⟨s, ha2.symm⟩, ⟨t, hb.symm⟩⟩)
    · -- `s = a ++ c2`, `c1 = c2 ++ pat`
      exact Or.inr (Or.inl ⟨c2, t, by rw [hb, hc1]⟩)

/-- A pattern that occurs neither in `T` nor in the wrappers, and cannot straddle
a border, does not occur in the wrapped text. -/
theorem not_infix_wrap (pat pre T post : QString)
    (hT : ¬ pat <:+: T) (hpre : ¬ pat <:+: pre) (hpost : ¬ pat <:+: post)
    (hl : ∀ k, k < pat.length → 0 < k → ¬ pat.take k <:+ pre)
    (hr : ∀ k, k < pat.length → 0 < k → ¬ pat.drop k <+: post) :
    ¬ pat <:+: pre ++ T ++ post := by
  have hsplit : ∀ x y : QString, x ≠ [] → y ≠ [] → pat = x ++ y →
      0 < x.length ∧ x.length < pat.length ∧ pat.take x.length = x ∧ pat.drop x.length = y := by
    intro x y hx hy hp
    have hxl : 0 < x.length := List.length_pos.mpr hx
    have hyl : 0 < y.length := List.length_pos.mpr hy
    refine ⟨hxl, by rw [hp, List.length_append]; omega, ?_, ?_⟩
    · rw [hp]; simp
    · rw [hp]; simp
  intro h
  rcases infix_append_split pat (pre ++ T) post h with h1 | h1 | ⟨x, y, hx, hy, hp, -, hyp⟩
  · rcases infix_append_split pat pre T h1 with h2 | h2 | ⟨x, y, hx, hy, hp, hxs, -⟩
    · exact hpre h2
    · exact hT h2
    · obtain ⟨h0, hlt, htake, -⟩ := hsplit x y hx hy hp
      exact hl x.length hlt h0 (by rw [htake]; exact hxs)
  · exact hpost h1
  · obtain ⟨h0, hlt, -, hdrop⟩ := hsplit x y hx hy hp
    exact hr x.length hlt h0 (by rw [hdrop]; exact hyp)

/-! ## The summary line (C19) -/

/-- C19: a text `T` that is not suppressed, not yet printed, holds a match of
`\d+ downloaded, \d+ installed, \d+ updated, \d+ configured, \d+ removed` and
holds neither "::" nor "<br" makes `prepareTextToPrint(T)` in treat mode, with
link-ification off, emit exactly `<b>T</b><br>`: bold, no font colour, although
`T` holds the red keyword "removed" and the green keyword "installed". -/
theorem C19_summary_line (env : Env) (st : XBPSExec) (T : QString)
    (hu : unwantedString T = false)
    (hm : T ∉ st.m_textPrinted)
    (hsum : rxContains T summaryRx = true)
    (hsec : contains T (qs "::") = false)
    (hbr : contains T (qs "<br") = false) :
    prepareTextToPrint env st T ectn_TREAT_STRING ectn_DONT_TREAT_URL_LINK =
      ({ st with m_textPrinted := st.m_textPrinted ++ [T] },
       [Event.textToPrintExt (qs "<b>" ++ T ++ qs "</b><br>")]) := by
  have hstyle : styleText T = qs "<b>" ++ T ++ qs "</b>" := by
    unfold styleText
    rw [if_pos hsum]
  have hc : contains (qs "<b>" ++ T ++ qs "</b>") (qs "::") = false := by
    rw [contains_eq_false_iff] at hsec ⊢
    exact not_infix_wrap _ _ _ _ hsec (by decide) (by decide) (by decide) (by decide)
  have hb : rxContains (qs "<b>" ++ T ++ qs "</b>") [L "<br"] = false := by
    unfold L
    rw [rxContains_lit]
    rw [contains_eq_false_iff] at hbr ⊢
    exact not_infix_wrap _ _ _ _ hbr (by decide) (by decide) (by decide) (by decide)
  have hframe : frameText (qs "<b>" ++ T ++ qs "</b>") = qs "<b>" ++ T ++ qs "</b><br>" := by
    unfold frameText
    simp only [hc, hb, Bool.false_eq_true, if_false, Bool.not_false, if_true]
    simp [qs]
  rw [prepareTextToPrint_emitted env st T _ hu hm, hstyle, hframe]
  simp

/-- The witness of C19: a summary line of xbps-install. -/
theorem C19_summary_line_witness :
    (prepareTextToPrint plainEnv (freshSession ectn_INSTALL)
        (qs "3 downloaded, 3 installed, 0 updated, 3 configured, 1 removed.")
        ectn_TREAT_STRING ectn_DONT_TREAT_URL_LINK).2 =
      [Event.textToPrintExt
        (qs "<b>" ++ qs "3 downloaded, 3 installed, 0 updated, 3 configured, 1 removed." ++
          qs "</b><br>")] :=
  congrArg Prod.snd
    (C19_summary_line plainEnv (freshSession ectn_INSTALL)
      (qs "3 downloaded, 3 installed, 0 updated, 3 configured, 1 removed.")
      (by decide) (by decide) (by decide) (by decide) (by decide))

/-! ## Severity precedence: red first (C20) -/

theorem rxContains_cls_lit (T : QString) (p : Char → Bool) (c : Char) (l : QString)
    (hc : p c = true) (h : (c :: l) <:+: T) :
    rxContains T [Atom.cls p 1 (some 1), Atom.lit l] = true := by
  rw [rxContains_iff]
  obtain ⟨pre, post, hT⟩ := h
  refine ⟨c :: (l ++ post), ⟨pre, by rw [← hT]; simp⟩, ?_⟩
  rw [matchHere_cls_one p _ c _ hc, matchHere_lit_append]
  rfl

theorem isRedText_of_keyword (T : QString)
    (hkey : contains T (qs "removed") = true ∨ contains T (qs "removing ") = true ∨
      contains T (qs "could not ") = true ∨ contains T (qs "error") = true ∨
      contains T (qs "failed") = true ∨ contains T (qs "is not synced") = true ∨
      contains T (qs "Removing") = true ∨ contains T (qs "Deinstalling") = true ∨
      contains T (qs "deinstalling") = true ∨ contains T (qs "could not be found") = true) :
    isRedText T = true := by
  unfold isRedText L
  simp only [rxContains_lit, Bool.or_eq_true]
  rcases hkey with h | h | h | h | h | h | h | h | h | h
  · simp [h]
  · simp [h]
  · simp [h]
  · simp [h]
  · simp [h]
  · simp [h]
  · have := rxContains_cls_lit T (fun c => c == 'R' || c == 'r') 'R' (qs "emoving") (by decide)
      ((contains_iff _ _).mp h)
    simp [this]
  · have := rxContains_cls_lit T (fun c => c == 'D' || c == 'd') 'D' (qs "einstalling")
      (by decide) ((contains_iff _ _).mp h)
    simp [this]
  · have := rxContains_cls_lit T (fun c => c == 'D' || c == 'd') 'd' (qs "einstalling")
      (by decide) ((contains_iff _ _).mp h)
    simp [this]
  · simp [h]

theorem frameText_cases (x : QString) :
    frameText x = x ++ qs "<br>" ∨
    frameText x = qs "<br><B>" ++ x ++ qs "</B><br><br>" ∨
    frameText x = x := by
  by_cases hsec : contains x (qs "::") = true
  · right; left; exact frameText_section x hsec
  · have hsec2 : contains x (qs "::") = false := by simpa using hsec
    unfold frameText
    simp only [hsec2, Bool.false_eq_true, if_false]
    split
    · left; rfl
    · right; right; rfl

/-- C20: a text `T` that is not suppressed, not yet printed, does not match the
summary pattern, holds no `<font color` tag and holds one of the error/removal
keywords is styled red bold with a trailing `&nbsp;`,
`<b><font color="#E55451">T&nbsp;</font></b>`, whatever progress verb or
warning keyword it holds besides: that one wrapper is the whole styling, and
the emitted text is this styled text with the line-break or section framing of
lines 449-457 (and link-ification when it is on). -/
theorem C20_red_precedence (env : Env) (st : XBPSExec) (T : QString) (tl : TreatURLLinks)
    (hu : unwantedString T = false)
    (hm : T ∉ st.m_textPrinted)
    (hsum : rxContains T summaryRx = false)
    (hfont : contains T (qs "<font color") = false)
    (hkey : contains T (qs "removed") = true ∨ contains T (qs "removing ") = true ∨
      contains T (qs "could not ") = true ∨ contains T (qs "error") = true ∨
      contains T (qs "failed") = true ∨ contains T (qs "is not synced") = true ∨
      contains T (qs "Removing") = true ∨ contains T (qs "Deinstalling") = true ∨
      contains T (qs "deinstalling") = true ∨ contains T (qs "could not be found") = true) :
    styleText T = qs "<b><font color=\"#E55451\">" ++ T ++ qs "&nbsp;</font></b>" ∧
    prepareTextToPrint env st T ectn_TREAT_STRING tl =
      ({ st with m_textPrinted := st.m_textPrinted ++ [T] },
       [Event.textToPrintExt
         (if tl = ectn_TREAT_URL_LINK then
            env.makeURLClickable
              (frameText (qs "<b><font color=\"#E55451\">" ++ T ++ qs "&nbsp;</font></b>"))
          else frameText (qs "<b><font color=\"#E55451\">" ++ T ++ qs "&nbsp;</font></b>"))]) ∧
    (frameText (qs "<b><font color=\"#E55451\">" ++ T ++ qs "&nbsp;</font></b>") =
        qs "<b><font color=\"#E55451\">" ++ T ++ qs "&nbsp;</font></b>" ++ qs "<br>" ∨
     frameText (qs "<b><font color=\"#E55451\">" ++ T ++ qs "&nbsp;</font></b>") =
        qs "<br><B>" ++ (qs "<b><font color=\"#E55451\">" ++ T ++ qs "&nbsp;</font></b>") ++
          qs "</B><br><br>" ∨
     frameText (qs "<b><font color=\"#E55451\">" ++ T ++ qs "&nbsp;</font></b>") =
        qs "<b><font color=\"#E55451\">" ++ T ++ qs "&nbsp;</font></b>") := by
  have hstyle : styleText T =
      qs "<b><font color=\"#E55451\">" ++ T ++ qs "&nbsp;</font></b>" := by
    have hf : rxContains T [L "<font color"] = false := by
      unfold L
      rw [rxContains_lit]
      exact hfont
    unfold styleText
    simp only [hsum, hf, isRedText_of_keyword T hkey, Bool.false_eq_true, if_false, if_true]
  refine ⟨hstyle, ?_, frameText_cases _⟩
  rw [prepareTextToPrint_emitted env st T tl hu hm, hstyle]

/-- The witness of C20: a text with a progress verb, a warning keyword and
"failed" is printed in red. -/
theorem C20_red_precedence_witness :
    (prepareTextToPrint plainEnv (freshSession ectn_INSTALL)
        (qs "Installing foo: warning, transaction failed") ectn_TREAT_STRING
        ectn_DONT_TREAT_URL_LINK).2 =
      [Event.textToPrintExt
        (qs "<b><font color=\"#E55451\">Installing foo: warning, transaction failed&nbsp;</font></b><br>")] :=
  (congrArg Prod.snd
    (C20_red_precedence plainEnv (freshSession ectn_INSTALL)
      (qs "Installing foo: warning, transaction failed") ectn_DONT_TREAT_URL_LINK
      (by decide) (by decide) (by decide) (by decide)
      (Or.inr (Or.inr (Or.inr (Or.inr (Or.inl (by decide))))))).2.1).trans (by decide)

/-! ## Noise filter and the order of its removals (C22) -/

/-- C23, the code at the segment "10% at step  2": the `%` split hands the
candidates "10%" and "at step  2%" to the classifier; the second one is not a
substring of the chunk, which has no "%" after the "2", and the classifier
emits `percentage(2)` for it. -/
theorem C23_percent_fabricated :
    segmentCandidates plainEnv (qs "10% at step  2") =
      ([qs "10%", qs "at step  2%"], true) ∧
    ¬ qs "at step  2%" <:+: qs "10% at step  2" ∧
    occurrences (qs "%") (qs "10% at step  2") = 1 ∧
    (splitOutputStrings plainEnv (freshSession ectn_INSTALL) (qs "10% at step  2")).2.1 =
      [Event.percentage 2] := by
  decide

/-! ## Exactly one line break (C21) -/

theorem prefix_append_cases (pat a b : QString) (h : pat <+: a ++ b) :
    pat <+: a ∨ (a.length < pat.length ∧ pat.drop a.length <+: b) := by
  rcases List.prefix_or_prefix_of_prefix h (List.prefix_append a b) with h1 | h1
  · exact Or.inl h1
  · obtain ⟨y, hy⟩ := h1
    by_cases hye : y = []
    · subst hye
      rw [List.append_nil] at hy
      exact Or.inl (by rw [hy])
    · right
      subst hy
      refine ⟨?_, ?_⟩
      · rw [List.length_append]
        have := List.length_pos.mpr hye
        omega
      · rw [List.drop_left]
        exact (List.prefix_append_right_inj a).mp h

/-- A pattern absent from `x` occurs in `x ++ post` as often as in `post`, when it
cannot start inside `x` and end inside `post`. -/
theorem occurrences_append (pat x post : QString) (hx : ¬ pat <:+: x)
    (hr : ∀ k, k < pat.length → 0 < k → ¬ pat.drop k <+: post) :
    occurrences pat (x ++ post) = occurrences pat post := by
  induction x with
  | nil => rfl
  | cons c cs ih =>
    have hcs : ¬ pat <:+: cs := fun hi => hx (hi.trans (List.suffix_cons c cs).isInfix)
    have hp : pat.isPrefixOf (c :: cs ++ post) = false := by
      cases hpp : pat.isPrefixOf (c :: cs ++ post) with
      | false => rfl
      | true =>
        rcases prefix_append_cases pat (c :: cs) post (List.isPrefixOf_iff_prefix.mp hpp) with
          h1 | ⟨h1, h2⟩
        · exact absurd h1.isInfix hx
        · exact absurd h2 (hr (c :: cs).length h1 (by simp))
    show (if pat.isPrefixOf (c :: cs ++ post) then 1 else 0) + occurrences pat (cs ++ post) = _
    rw [hp, ih hcs]
    simp

theorem styleText_shape (T : QString) (hbr : ¬ qs "<br" <:+: T) (hsec : ¬ qs "::" <:+: T) :
    styleText T = T ++ qs "<br>" ∨
    (¬ qs "<br" <:+: styleText T ∧ ¬ qs "::" <:+: styleText T) := by
  unfold styleText
  split
  · right
    exact ⟨not_infix_wrap _ _ _ _ hbr (by decide) (by decide) (by decide) (by decide),
      not_infix_wrap _ _ _ _ hsec (by decide) (by decide) (by decide) (by decide)⟩
  · split
    · left; rfl
    · split
      · right
        exact ⟨not_infix_wrap _ _ _ _ hbr (by decide) (by decide) (by decide) (by decide),
          not_infix_wrap _ _ _ _ hsec (by decide) (by decide) (by decide) (by decide)⟩
      · split
        · right
          exact ⟨not_infix_wrap _ _ _ _ hbr (by decide) (by decide) (by decide) (by decide),
            not_infix_wrap _ _ _ _ hsec (by decide) (by decide) (by decide) (by decide)⟩
        · split
          · right
            exact ⟨not_infix_wrap _ _ _ _ hbr (by decide) (by decide) (by decide) (by decide),
              not_infix_wrap _ _ _ _ hsec (by decide) (by decide) (by decide) (by decide)⟩
          · split
            · right
              exact ⟨not_infix_wrap _ _ _ _ hbr (by decide) (by decide) (by decide) (by decide),
                not_infix_wrap _ _ _ _ hsec (by decide) (by decide) (by decide) (by decide)⟩
            · right
              exact ⟨hbr, hsec⟩

theorem frameText_plain (x : QString) (hbr : ¬ qs "<br" <:+: x) (hsec : ¬ qs "::" <:+: x) :
    frameText x = x ++ qs "<br>" := by
  have hc : contains x (qs "::") = false := (contains_eq_false_iff _ _).mpr hsec
  have hb : rxContains x [L "<br"] = false := by
    unfold L
    rw [rxContains_lit]
    exact (contains_eq_false_iff _ _).mpr hbr
  unfold frameText
  simp [hc, hb]

theorem frameText_with_break (T : QString) (hsec : ¬ qs "::" <:+: T) :
    frameText (T ++ qs "<br>") = T ++ qs "<br>" := by
  have hc : contains (T ++ qs "<br>") (qs "::") = false := by
    rw [contains_eq_false_iff]
    have := not_infix_wrap (qs "::") [] T (qs "<br>") hsec (by decide) (by decide) (by decide)
      (by decide)
    simpa using this
  have hb : rxContains (T ++ qs "<br>") [L "<br"] = true := by
    unfold L
    rw [rxContains_lit, contains_iff]
    exact ⟨T, qs ">", by simp [qs]⟩
  unfold frameText
  simp [hc, hb]

/-- The emitted text of a `T` without "<br" and "::": a text free of "<br"
followed by one `<br>`. -/
theorem frameText_styleText_shape (T : QString) (hbr : ¬ qs "<br" <:+: T)
    (hsec : ¬ qs "::" <:+: T) :
    ∃ x, ¬ qs "<br" <:+: x ∧ frameText (styleText T) = x ++ qs "<br>" := by
  rcases styleText_shape T hbr hsec with h | ⟨h1, h2⟩
  · exact ⟨T, hbr, by rw [h, frameText_with_break T hsec]⟩
  · exact ⟨styleText T, h1, frameText_plain _ h1 h2⟩

/-- C21: whatever styling branch applies, a text `T` that holds neither "<br"
nor "::" and is emitted by `prepareTextToPrint` in treat mode with
link-ification off is emitted as a string that ends with `<br>` and holds
exactly one occurrence of "<br". -/
theorem C21_single_line_break (env : Env) (st : XBPSExec) (T e : QString)
    (hbr : contains T (qs "<br") = false)
    (hsec : contains T (qs "::") = false)
    (hemit : Event.textToPrintExt e ∈
      (prepareTextToPrint env st T ectn_TREAT_STRING ectn_DONT_TREAT_URL_LINK).2) :
    qs "<br>" <:+ e ∧ occurrences (qs "<br") e = 1 := by
  have he : e = frameText (styleText T) := by
    rcases prepareTextToPrint_cases env st T ectn_DONT_TREAT_URL_LINK with h | ⟨_, _, h⟩
    · rw [h] at hemit
      simp at hemit
    · rw [h] at hemit
      simpa using hemit
  obtain ⟨x, hx, hf⟩ := frameText_styleText_shape T ((contains_eq_false_iff _ _).mp hbr)
    ((contains_eq_false_iff _ _).mp hsec)
  rw [he, hf]
  refine ⟨List.suffix_append x (qs "<br>"), ?_⟩
  rw [occurrences_append (qs "<br") x (qs "<br>") hx (by decide)]
  decide

/-- The witness of C21: a green line. -/
theorem C21_single_line_break_witness :
    qs "<br>" <:+ qs "<b><font color=\"#4BC413\">foo-1.0_1: installed successfully.</font></b><br>" ∧
    occurrences (qs "<br")
      (qs "<b><font color=\"#4BC413\">foo-1.0_1: installed successfully.</font></b><br>") = 1 :=
  C21_single_line_break plainEnv (freshSession ectn_INSTALL)
    (qs "foo-1.0_1: installed successfully.")
    (qs "<b><font color=\"#4BC413\">foo-1.0_1: installed successfully.</font></b><br>")
    (by decide) (by decide) (by decide)

end XBPS
